import Mathlib

/-!
# Verification of the energy_net node/energy model

This file gives a shallow embedding, over exact rational arithmetic, of the
core simulation code of the repository:

* `comp.py` — `SuperCapacitor`, `LiBattery`, `Sensor`, `SolarHarvester`,
  `Energysystem` (with its `energy_manager` policies 1–6);
* `Node_class.py` — `simulate_node` and `communicate_with_mother`.

The Python code calls the numeric routines `math.sqrt`, `math.exp` and the
float power operator.  Those are modelled by explicit *oracle* parameters
(`Oracles` below): any rational-valued realisation of the corresponding real
function.  Universal theorems hold for every oracle (sometimes under the
positivity facts true of the real functions); concrete refutations
instantiate the oracles at points where their exact value is forced
(perfect squares) or where the refuted property does not depend on the
oracle value.

All other arithmetic in the source (`+ - * / abs min max %` and comparisons)
is exact rational arithmetic, embedded directly.
-/

namespace EnergyNet

/-- Oracles standing for the transcendental routines used by `comp.py`
(`math.sqrt`, `math.exp`, and float `**`).  The model consults `sqrt` only on
non-negative arguments (the Python code guards the negative case with
`try/except`). -/
structure Oracles where
  sqrt : ℚ → ℚ
  exp : ℚ → ℚ
  rpow : ℚ → ℚ → ℚ

/-- Validity assumptions on the oracles that are true of the real functions
they stand for: square roots of non-negative numbers are non-negative, the
exponential is positive, and real powers of the (positive) capacity-loss
base are positive. -/
structure Oracles.Sound (o : Oracles) : Prop where
  sqrt_nonneg : ∀ q, 0 ≤ q → 0 ≤ o.sqrt q
  exp_pos : ∀ q, 0 < o.exp q
  rpow_pos : ∀ x y, 0 < x → 0 < o.rpow x y

/-! ## SuperCapacitor (`comp.py` lines 81–151) -/

/-- State of a `SuperCapacitor` instance: the constructor parameters
`Vm`, `Rr`, `C` and the mutable fields `Voc`, `Soc`, `state`, `Psc`.
`state` is the Python integer code: 0 = out of charge, 1 = normal,
2 = fully charged. -/
structure SuperCapacitor where
  Vm : ℚ
  Rr : ℚ
  C : ℚ
  Voc : ℚ
  Soc : ℚ
  state : ℤ
  Psc : ℚ
deriving DecidableEq, Repr

/-- `SuperCapacitor.__init__(Vm, Rr, C, Voc)` of `comp.py` (lines 85–104). -/
def SuperCapacitor.init (Vm Rr C Voc : ℚ) : SuperCapacitor :=
  { Vm := Vm, Rr := Rr, C := C, Voc := Voc, Soc := Voc / Vm, state := 2, Psc := 0 }

/-- `SuperCapacitor.update(Psys, dt)` of `comp.py` (lines 106–151), with the
square root supplied by the oracle `sq`.  A negative square-root argument is
the Python `ValueError` path: the first one aborts the update, the second
one sets `Voc` to 0 before the clamp. -/
def SuperCapacitor.update (sq : ℚ → ℚ) (s : SuperCapacitor) (Psys dt : ℚ) :
    SuperCapacitor :=
  let s := { s with Psc := Psys }
  if Psys > 0 ∧ s.state = 0 then s
  else if Psys < 0 ∧ s.state = 2 then s
  else
    let arg1 := s.Voc ^ 2 - 2 * Psys * dt / s.C
    if arg1 < 0 then s
    else
      let Vocn := sq arg1
      let Q1 := s.C * |Vocn - s.Voc|
      let Er := Q1 ^ 2 * s.Rr / dt
      let Ec := Er + Psys * dt
      let arg2 := s.Voc ^ 2 - 2 * Ec / s.C
      let Voc1 := if arg2 < 0 then 0 else sq arg2
      let Soc1 := Voc1 / s.Vm
      if Voc1 ≥ s.Vm then { s with Voc := s.Vm, Soc := Soc1, state := 2 }
      else if Voc1 ≤ s.Vm / 4 then { s with Voc := s.Vm / 4, Soc := Soc1, state := 0 }
      else { s with Voc := Voc1, Soc := Soc1, state := 1 }

/-- A concrete supercapacitor used to exercise the update paths: for a
discharge of 16 W for 1 s the first energy-balance square root succeeds
(argument 9) and the second one is infeasible (argument −23). -/
def scProbe : SuperCapacitor :=
  { Vm := 5, Rr := 2, C := 2, Voc := 5, Soc := 1, state := 2, Psc := 0 }

/-- Square-root oracle agreeing with the real square root on the one point
where the discharge of `scProbe` consults it (`√9 = 3`). -/
def sqNine : ℚ → ℚ := fun q => if q = 9 then 3 else 0

/-- A supercapacitor in the normal band, used as a witness input. -/
def scNormal : SuperCapacitor :=
  { Vm := 5, Rr := 1, C := 1, Voc := 4, Soc := 4/5, state := 1, Psc := 0 }

/-- Square-root oracle agreeing with the real square root on the one point
where the zero-power update of `scNormal` consults it (`√16 = 4`). -/
def sqSixteen : ℚ → ℚ := fun q => if q = 16 then 4 else 0

/-! ## LiBattery (`comp.py` lines 154–238) -/

/-- Cycle-life exponent `z` of `LiBattery` (`comp.py` line 159). -/
def LiZ : ℚ := 430348812891015 / 10 ^ 15

/-- Fade parameter `b_para[0]` (`comp.py` line 160). -/
def LiB1 : ℚ := 10519 / 10 ^ 4

/-- Fade parameter `b_para[1]` (`comp.py` line 160). -/
def LiB0 : ℚ := -56896 / 10 ^ 4

/-- Throughput ratio `Ar` (`comp.py` line 161). -/
def LiAr : ℚ := 88 / 10 ^ 4

/-- Inner resistance `Rr` of the battery (`comp.py` line 165). -/
def LiRr : ℚ := 46 / 10 ^ 2

/-- A 7-parameter open-circuit-voltage curve (`t_c` / `t_d` of `comp.py`). -/
structure Curve where
  p0 : ℚ
  p1 : ℚ
  p2 : ℚ
  p3 : ℚ
  p4 : ℚ
  p5 : ℚ
  p6 : ℚ
deriving DecidableEq, Repr

/-- Default charge curve `t_c` (`comp.py` lines 166–167). -/
def defaultTc : Curve :=
  { p0 := 832784949290123 / 10 ^ 15, p1 := 950742937440156 / 10 ^ 17
    p2 := 986933683934508 / 10 ^ 15, p3 := 191017763008209 / 10 ^ 14
    p4 := 366569502392137 / 10 ^ 15, p5 := 100215219026646 / 10 ^ 14
    p6 := 157676233212954 / 10 ^ 14 }

/-- Default discharge curve `t_d` (`comp.py` lines 168–169). -/
def defaultTd : Curve :=
  { p0 := 476542280050523 / 10 ^ 15, p1 := 531424828486832 / 10 ^ 16
    p2 := 968130028634588 / 10 ^ 15, p3 := 209592651158253 / 10 ^ 14
    p4 := 135223313396928 / 10 ^ 14, p5 := 434427534146120 / 10 ^ 14
    p6 := 148772171109281 / 10 ^ 14 }

/-- The open-circuit-voltage formula of `LiBattery.update_voc`
(`comp.py` lines 184–188). -/
def curveVoc (c : Curve) (Soc : ℚ) : ℚ :=
  c.p0 * (1 - (c.p1 * (1 - Soc) / (1 - c.p2 * (1 - Soc)))) +
    c.p3 * (1 - (c.p4 * (1 - Soc) / (1 + c.p5 * (1 - Soc)))) + c.p6

/-- State of a `LiBattery` instance: constructor parameters `A0`, `t_c`,
`t_d` and the mutable fields.  `state` is the Python integer code:
1 = normal, 0 = out of charge, 2 = fully charged, −1 = out of life. -/
structure LiBattery where
  A0 : ℚ
  t_c : Curve
  t_d : Curve
  Soc : ℚ
  Voc : ℚ
  I : ℚ
  P_check : ℚ
  Qloss : ℚ
  state : ℤ
deriving DecidableEq, Repr

/-- `LiBattery.update_voc(discharge)` of `comp.py` (lines 181–188). -/
def LiBattery.update_voc (b : LiBattery) (discharge : Prop) [Decidable discharge] :
    LiBattery :=
  { b with Voc := curveVoc (if discharge then b.t_d else b.t_c) b.Soc }

/-- `LiBattery.__init__(A0, t_c, t_d)` of `comp.py` (lines 157–179): charge
state 75 %, capacity loss 0.01, normal state, then `update_voc(discharge=True)`. -/
def LiBattery.init (A0 : ℚ) (t_c t_d : Curve) : LiBattery :=
  LiBattery.update_voc
    { A0 := A0, t_c := t_c, t_d := t_d, Soc := 3/4, Voc := 0, I := 0,
      P_check := 0, Qloss := 1/100, state := 1 } True

/-- `LiBattery.update(Pdemand, dt)` of `comp.py` (lines 190–238).
`Pdemand > 0` discharges, `< 0` charges.  A discharge in the Empty state is
the sentinel branch that forces `Qloss = 0.1`; a charge in the Full state
only zeroes the current; the Dead state (−1) skips the physical update
entirely.  The square root, exponential and rational power are supplied by
the oracle `o`. -/
def LiBattery.update (o : Oracles) (b : LiBattery) (Pdemand dt : ℚ) : LiBattery :=
  let b := { b with P_check := Pdemand }
  if Pdemand > 0 ∧ b.state = 0 then { b with I := 0, Qloss := 1/10 }
  else if Pdemand < 0 ∧ b.state = 2 then { b with I := 0 }
  else if b.state ≠ -1 then
    let b := b.update_voc (Pdemand > 0)
    let argI := b.Voc ^ 2 - 4 * LiRr * Pdemand
    let I := if argI < 0 then 0 else -(b.Voc - o.sqrt argI) / (2 * LiRr)
    let Ah := I * dt / 3600
    let Soc1 := b.Soc + Ah / ((1 - b.Qloss) * b.A0)
    let Crate := |I / b.A0|
    let bfade := LiB1 * Crate + LiB0
    let Ahr := |Ah / b.A0 * LiAr|
    let dQloss := Ahr * LiZ * o.exp (bfade / LiZ) * o.rpow b.Qloss ((LiZ - 1) / LiZ)
    let Qloss1 := b.Qloss + dQloss
    let state1 : ℤ :=
      if Qloss1 ≥ 9/10 then -1
      else if Soc1 ≥ 1 - Qloss1 ∨ Soc1 ≥ 99/100 then 2
      else if Soc1 ≤ 1/10 then 0
      else 1
    { b with I := I, Soc := Soc1, Qloss := Qloss1, state := state1 }
  else b

/-- A constant open-circuit-voltage curve (all shape parameters zero,
offset 4 V): a legal constructor argument that keeps the counterexample
arithmetic small. -/
def flatCurve4 : Curve :=
  { p0 := 0, p1 := 0, p2 := 0, p3 := 0, p4 := 0, p5 := 0, p6 := 4 }

/-- Square-root oracle agreeing with the real square root on the two points
where the `battCex` run consults it (`√4 = 2`, `√36 = 6`). -/
def sqBatt : ℚ → ℚ := fun q => if q = 4 then 2 else if q = 36 then 6 else 0

/-- Concrete oracle for the battery counterexample run.  The square root is
exact at both consulted points; the exponential and power oracles return 1
(the run below refutes monotonicity for *every* positive value of these
oracles — only positivity is used, which the real `exp` and `**` satisfy). -/
def oBattProbe : Oracles :=
  { sqrt := sqBatt, exp := fun _ => 1, rpow := fun _ _ => 1 }

/-- A dead battery, used as a witness input for the absorbing-state law. -/
def battDead : LiBattery :=
  { A0 := 1, t_c := flatCurve4, t_d := flatCurve4, Soc := 1/2, Voc := 4,
    I := 0, P_check := 0, Qloss := 95/100, state := -1 }

/-- Counterexample run for C2, step 0: a fresh battery of capacity 1 Ah with
flat 4 V curves (`Soc = 3/4`, `Qloss = 0.01`, state Normal). -/
def battCex0 : LiBattery := LiBattery.init 1 flatCurve4 flatCurve4

/-- Step 1: a hard discharge (`P = 150/23` W makes the current discriminant
the perfect square 4) for `dt = 143451/125` s, draining `Soc` to `1/20`:
the battery becomes Empty (state 0). -/
def battCex1 : LiBattery := battCex0.update oBattProbe (150/23) (143451/125)

/-- Step 2: a discharge while Empty: the sentinel branch sets `Qloss = 0.1`. -/
def battCex2 : LiBattery := battCex1.update oBattProbe 1 1

/-- Step 3: a small charge (`P = −250/23` W makes the discriminant the
perfect square 36) for `dt = 7452/125` s: `Soc` rises only to `9/100`, so the
state stays Empty, while the degradation term pushes `Qloss` above `0.1`. -/
def battCex3 : LiBattery := battCex2.update oBattProbe (-250/23) (7452/125)

/-- Step 4: another discharge while Empty: the sentinel overwrites `Qloss`
with `0.1`, *decreasing* it. -/
def battCex4 : LiBattery := battCex3.update oBattProbe 1 1

/-! ## Sensor, SolarHarvester and the Energysystem (`comp.py` lines 3–79, 240–432) -/

/-- Python float `%` (used for `Sys_t % Tp` in `Sensor.compute_power`):
`x - floor(x/y) * y`. -/
def pymod (x y : ℚ) : ℚ := x - ⌊x / y⌋ * y

/-- State of a `Sensor` instance (`comp.py` lines 37–57). -/
structure Sensor where
  Tp : ℚ
  Ta : ℚ
  Ps : ℚ
  Pa : ℚ
  Ph : ℚ
  P : ℚ
deriving DecidableEq, Repr

/-- `Sensor.compute_power(event, Sys_t)` of `comp.py` (lines 59–78). -/
def Sensor.compute_power (s : Sensor) (event : ℤ) (Sys_t : ℚ) : Sensor :=
  let sensor_t := pymod Sys_t s.Tp
  if event = 0 then
    if s.Tp / 2 ≤ sensor_t ∧ sensor_t < s.Tp / 2 + s.Ta then { s with P := s.Pa / 1000 }
    else { s with P := s.Ps / 1000 }
  else { s with P := s.Ph / 1000 }

/-- State of a `SolarHarvester` instance (`comp.py` lines 3–18). -/
structure SolarHarvester where
  Area : ℚ
  a : ℚ
  b : ℚ
  c : ℚ
  P : ℚ
deriving DecidableEq, Repr

/-- `SolarHarvester.compute_power(env1)` of `comp.py` (lines 20–34). -/
def SolarHarvester.compute_power (h : SolarHarvester) (env1 : ℚ) : SolarHarvester :=
  let Pm := max 0 (-h.a * env1 ^ 2 + h.b * env1 + h.c)
  { h with P := Pm * h.Area / 1000 }

/-- The raw 5-element policy parameter list `k` of `Energysystem.__init__`. -/
structure Klist where
  c0 : ℚ
  c1 : ℚ
  c2 : ℚ
  c3 : ℚ
  c4 : ℚ
deriving DecidableEq, Repr

/-- The derived `k_adaptive` parameters (`comp.py` lines 268–274). -/
structure Kadaptive where
  k0 : ℚ
  k1 : ℚ
  k2 : ℚ
  k3 : ℚ
  k4 : ℚ
deriving DecidableEq, Repr

/-- State of an `Energysystem` instance (`comp.py` lines 240–282).  The
fixed DC/DC efficiencies are not fields here because `update` uses the
literal `0.9` (line 304). -/
structure Energysystem where
  dt : ℚ
  sensor : Sensor
  supercapacitor : SuperCapacitor
  battery : LiBattery
  solar_harvester : SolarHarvester
  management : ℤ
  Ps_a : ℚ
  k_adaptive : Kadaptive
  P_batt : ℚ
  P_sc : ℚ
  P_demand : ℚ
  yita : ℚ
  Sys_t : ℚ
  state : ℤ
deriving DecidableEq, Repr

/-- `Energysystem.__init__` of `comp.py` (lines 245–282): derives
`k_adaptive` from the raw `k` list and overwrites the supercapacitor
field `Voc` with the initial battery `Voc` (line 263). -/
def Energysystem.init (dt : ℚ) (sensor : Sensor) (sc : SuperCapacitor)
    (battery : LiBattery) (solar : SolarHarvester) (Ps_a : ℚ) (management : ℤ)
    (k : Klist) : Energysystem :=
  { dt := dt, sensor := sensor, supercapacitor := { sc with Voc := battery.Voc },
    battery := battery, solar_harvester := solar, management := management,
    Ps_a := Ps_a,
    k_adaptive := { k0 := k.c0 * Ps_a, k1 := k.c1 * sc.Vm, k2 := k.c2 * Ps_a,
                    k3 := k.c3, k4 := k.c4 },
    P_batt := 0, P_sc := 0, P_demand := 0, yita := 1, Sys_t := 0, state := 1 }

/-- `Energysystem.energy_manager(Pdemand)` of `comp.py` (lines 320–422).
Returns the allocated pair `(P_SC, P_Bat)` together with the system with
its `P_sc`, `P_batt` and (for policy 6) `yita` fields written back.  The
helper triple carries `(P_SC, P_Bat, yita)`. -/
def Energysystem.energy_manager (e : Energysystem) (Pdemand : ℚ) :
    (ℚ × ℚ) × Energysystem :=
  let r : ℚ × ℚ × ℚ :=
    if e.management = 1 then
      (0, Pdemand, e.yita)
    else if e.management = 2 then
      if (Pdemand > 0 ∧ e.supercapacitor.state ≠ 0) ∨
          (Pdemand < 0 ∧ e.supercapacitor.state ≠ 2) then
        (Pdemand, 0, e.yita)
      else (0, Pdemand, e.yita)
    else if e.management = 3 then
      if (Pdemand > 0 ∧ e.supercapacitor.Voc > e.battery.Voc) ∨
          (Pdemand < 0 ∧ e.supercapacitor.Voc < e.battery.Voc) then
        (Pdemand, 0, e.yita)
      else (0, Pdemand, e.yita)
    else if e.management = 4 then
      if Pdemand > 0 then
        if e.solar_harvester.P > 1/2 * e.Ps_a then
          if e.supercapacitor.Voc - e.battery.Voc ≤ -(9/10) ∧
              e.supercapacitor.state ≠ 0 then
            (0, Pdemand, e.yita)
          else
            let P_SC := 1/2 * e.supercapacitor.C *
              (e.supercapacitor.Voc - e.battery.Voc + 9/10) ^ 2 / e.dt
            if P_SC > Pdemand then (Pdemand, 0, e.yita)
            else (P_SC, Pdemand - P_SC, e.yita)
        else
          if e.supercapacitor.Voc > e.battery.Voc then
            let P_SC := 1/2 * e.supercapacitor.C *
              (e.supercapacitor.Voc - e.battery.Voc) ^ 2 / e.dt
            if P_SC > Pdemand then (Pdemand, 0, e.yita)
            else (P_SC, Pdemand - P_SC, e.yita)
          else
            let P_SC := -(1/5) * e.Ps_a
            (P_SC, Pdemand - P_SC, e.yita)
      else
        if e.supercapacitor.Voc - e.battery.Voc ≥ 3/10 then
          (0, Pdemand, e.yita)
        else
          let P_SC := -(1/2) * e.supercapacitor.C *
            (e.supercapacitor.Voc - e.battery.Voc - 3/10) ^ 2 / e.dt
          if P_SC < Pdemand then (Pdemand, 0, e.yita)
          else (P_SC, Pdemand - P_SC, e.yita)
    else if e.management = 5 then
      let pre : ℚ × ℚ :=
        if e.solar_harvester.P < e.k_adaptive.k0 ∧
            e.supercapacitor.Voc < e.k_adaptive.k1 then
          (-e.k_adaptive.k2, e.k_adaptive.k2)
        else (0, 0)
      if Pdemand > 0 then
        if e.supercapacitor.state ≠ 0 then (pre.1 + Pdemand, pre.2, e.yita)
        else (pre.1, pre.2 + Pdemand, e.yita)
      else
        if e.supercapacitor.state ≠ 2 then (pre.1 + Pdemand, pre.2, e.yita)
        else (pre.1, pre.2 + Pdemand, e.yita)
    else if e.management = 6 then
      let pre : ℚ × ℚ :=
        if e.solar_harvester.P < e.k_adaptive.k0 ∧
            e.supercapacitor.Voc < e.k_adaptive.k1 then
          (-e.k_adaptive.k2, e.k_adaptive.k2)
        else (0, 0)
      if Pdemand > 0 then
        if e.supercapacitor.state ≠ 0 then (pre.1 + Pdemand, pre.2, e.yita)
        else (pre.1, pre.2 + Pdemand, e.yita)
      else
        if e.supercapacitor.state ≠ 2 then (pre.1 + Pdemand, pre.2, e.yita)
        else
          if Pdemand < -5 * e.Ps_a then
            let scale := min ((1 - e.k_adaptive.k3 * e.k_adaptive.k4 -
              (1 - e.k_adaptive.k4) * e.battery.Soc) / (1 - e.k_adaptive.k3)) 1
            (pre.1, pre.2 + scale * Pdemand, scale)
          else (pre.1, pre.2 + Pdemand, e.yita)
    else (0, 0, e.yita)
  ((r.1, r.2.1), { e with P_batt := r.2.1, P_sc := r.1, yita := r.2.2 })

/-- A sensor that draws no power in any mode (all power levels are
constructor parameters, so this is a legal configuration). -/
def sensorZero : Sensor := { Tp := 10, Ta := 1, Ps := 0, Pa := 0, Ph := 0, P := 0 }

/-- A solar harvester with the default regression coefficients of
`comp.py` line 7 and a current output of 10 W. -/
def solarBright : SolarHarvester :=
  { Area := 1, a := 794 / 10 ^ 9, b := 108 / 10 ^ 4, c := -287 / 10 ^ 4, P := 10 }

/-- Concrete energy system exercising policy 6: supercapacitor Full,
battery at 75 % charge, adaptive parameters derived from
`k = [2, 0.64, 3.4, -0.7, 0]` with `Ps_a = 1` and `Vm = 5`. -/
def emCex : Energysystem :=
  { dt := 1, sensor := sensorZero,
    supercapacitor := { Vm := 5, Rr := 1, C := 1, Voc := 4, Soc := 4/5, state := 2, Psc := 0 },
    battery := { A0 := 1, t_c := flatCurve4, t_d := flatCurve4, Soc := 3/4,
                 Voc := 4, I := 0, P_check := 0, Qloss := 1/100, state := 1 },
    solar_harvester := solarBright,
    management := 6, Ps_a := 1,
    k_adaptive := { k0 := 2, k1 := 16/5, k2 := 17/5, k3 := -(7/10), k4 := 0 },
    P_batt := 0, P_sc := 0, P_demand := 0, yita := 1, Sys_t := 0, state := 1 }

/-- The same system running the battery-only policy 1. -/
def emBattOnly : Energysystem := { emCex with management := 1 }

/-! ## The communication graph and routing (`Node_class.py` lines 145–185) -/

/-- A weighted graph: the node list of the `networkx` graph together with
the (directed view of the) edge-weight lookup `G.edges[u, v]["weight"]`;
`none` means "no edge".  The graphs built by the repository are undirected,
i.e. the weight function is symmetric, but none of the routing properties
needs that assumption. -/
structure WGraph where
  nodes : List ℕ
  weight : ℕ → ℕ → Option ℚ

/-- Adjacency test. -/
def WGraph.adj (G : WGraph) (u v : ℕ) : Bool := (G.weight u v).isSome

/-- Edge-weight lookup with the (never reached on real edges) default 0. -/
def edgeW (G : WGraph) (u v : ℕ) : ℚ := (G.weight u v).getD 0

/-- Total weight of a node sequence: the sum of the weights of its
consecutive pairs — exactly the `total_cost` accumulation of
`communicate_with_mother` (`Node_class.py` lines 167–179). -/
def pathWeight (G : WGraph) : List ℕ → ℚ
  | [] => 0
  | [_] => 0
  | u :: v :: rest => edgeW G u v + pathWeight G (v :: rest)

/-- `p` is a path from `s` to `t` in `G`: non-empty, starts at `s`, ends at
`t`, every consecutive pair is an edge.  (Repetition of nodes is allowed;
this is the walk notion.) -/
def IsPathFrom (G : WGraph) (s t : ℕ) (p : List ℕ) : Prop :=
  p ≠ [] ∧ p.head? = some s ∧ p.getLast? = some t ∧
    List.Chain' (fun u v => G.adj u v = true) p

instance (G : WGraph) (s t : ℕ) (p : List ℕ) : Decidable (IsPathFrom G s t p) :=
  inferInstanceAs (Decidable (p ≠ [] ∧ p.head? = some s ∧ p.getLast? = some t ∧
    List.Chain' (fun u v => G.adj u v = true) p))

/-- Wellformedness of the graph model: the node list has no duplicates and
every edge endpoint is listed. -/
def WGraph.WF (G : WGraph) : Prop :=
  G.nodes.Nodup ∧ ∀ u v, (G.weight u v).isSome = true → u ∈ G.nodes ∧ v ∈ G.nodes

/-- All edge weights are non-negative (the repository uses
`k · distance²`). -/
def WGraph.NonnegW (G : WGraph) : Prop :=
  ∀ u v w, G.weight u v = some w → 0 ≤ w

/-- Depth-first enumeration of the duplicate-free paths from `u` to `t`
that avoid `visited`; `fuel` bounds the length. -/
def pathsAux (G : WGraph) (t : ℕ) : ℕ → ℕ → List ℕ → List (List ℕ)
  | 0, _, _ => []
  | fuel + 1, u, visited =>
    if u = t then [[u]]
    else
      (G.nodes.filter (fun v => G.adj u v && !(visited.contains v))).flatMap
        (fun v => (pathsAux G t fuel v (v :: visited)).map (u :: ·))

/-- All duplicate-free paths from `s` to `t`. -/
def allSimplePaths (G : WGraph) (s t : ℕ) : List (List ℕ) :=
  pathsAux G t G.nodes.length s [s]

/-- Left fold keeping the first candidate of minimum weight. -/
def pickMin (G : WGraph) (p0 : List ℕ) (l : List (List ℕ)) : List ℕ :=
  l.foldl (fun best q => if pathWeight G q < pathWeight G best then q else best) p0

/-- First path of minimum weight in a list of candidate paths. -/
def minPath (G : WGraph) : List (List ℕ) → Option (List ℕ)
  | [] => none
  | p :: ps => some (pickMin G p ps)

/-- Modelled from the spec: `nx.dijkstra_path` (the `networkx` library is
external to the repository).  Per its contract and §4.7 of the spec it
returns a minimum-total-weight source→sink path for non-negative edge
weights, here realised by exhaustive enumeration of the duplicate-free
paths; `none` models the `NetworkXNoPath` exception. -/
def dijkstra_path (G : WGraph) (s t : ℕ) : Option (List ℕ) :=
  minPath G (allSimplePaths G s t)

/-- The cost-attribution loop of `communicate_with_mother` (`Node_class.py`
lines 167–179): walk the consecutive pairs of the path, adding each edge
weight to the energy-consumption ledger of the first node of the pair and to the
running total. -/
def chargeHops (G : WGraph) : List ℕ → (ℕ → ℚ) → ℚ → ((ℕ → ℚ) × ℚ)
  | u :: v :: rest, cons, acc =>
    chargeHops G (v :: rest) (Function.update cons u (cons u + edgeW G u v))
      (acc + edgeW G u v)
  | _, cons, acc => (cons, acc)

/-- `communicate_with_mother(G, source_node, mother_node_id,
node_energy_consumptions)` of `Node_class.py` (lines 145–185): route with
Dijkstra, attribute the weight of each hop to the first node of that hop, return the
path, the total cost and the updated ledger; on `NetworkXNoPath` return an
empty path, infinite cost and the untouched ledger. -/
def communicate_with_mother (G : WGraph) (source mother : ℕ) (cons : ℕ → ℚ) :
    List ℕ × WithTop ℚ × (ℕ → ℚ) :=
  match dijkstra_path G source mother with
  | some p =>
    let r := chargeHops G p cons 0
    (p, (r.2 : WithTop ℚ), r.1)
  | none => ([], ⊤, cons)

/-- A concrete 4-node, 5-edge undirected graph (edges 0–1 w 1, 1–3 w 2,
0–2 w 5, 2–3 w 1, 0–3 w 10); the cheapest 0→3 route is [0, 1, 3] at 3. -/
def wG4 : ℕ → ℕ → Option ℚ := fun u v =>
  if (u = 0 ∧ v = 1) ∨ (u = 1 ∧ v = 0) then some 1
  else if (u = 1 ∧ v = 3) ∨ (u = 3 ∧ v = 1) then some 2
  else if (u = 0 ∧ v = 2) ∨ (u = 2 ∧ v = 0) then some 5
  else if (u = 2 ∧ v = 3) ∨ (u = 3 ∧ v = 2) then some 1
  else if (u = 0 ∧ v = 3) ∨ (u = 3 ∧ v = 0) then some 10
  else none

/-- The 4-node test graph. -/
def G4 : WGraph := { nodes := [0, 1, 2, 3], weight := wG4 }

/-- A two-node graph with no edges: node 1 is unreachable from node 0. -/
def G2disc : WGraph := { nodes := [0, 1], weight := fun _ _ => none }

/-- The all-zero energy-consumption ledger. -/
def consZero : ℕ → ℚ := fun _ => 0

/-! ## The node simulation loop (`Node_class.py` lines 36–141) -/

/-- `Energysystem.judge_state` of `comp.py` (lines 424–431). -/
def Energysystem.judge_state (e : Energysystem) : Energysystem :=
  if e.battery.state = -1 then { e with state := -1 }
  else if e.battery.state = 0 ∧ e.supercapacitor.state = 0 then { e with state := 0 }
  else e

/-- `Energysystem.update(event, env)` of `comp.py` (lines 284–318): advance
time, compute sensor and solar power, derive the demand with the fixed 0.9
DC/DC efficiencies, split it with the energy manager, update both storage
devices, judge the system state and return the instantaneous vector.
Returns `none` when `state < 0` (the Python method implicitly returns
`None` without touching anything). -/
def Energysystem.update (o : Oracles) (e : Energysystem) (event : ℤ) (env : ℚ) :
    Option (Energysystem × (ℚ × ℚ × ℚ × ℚ × ℚ)) :=
  if e.state ≥ 0 then
    let e1 := { e with Sys_t := e.Sys_t + e.dt }
    let sensor := e1.sensor.compute_power event e1.Sys_t
    let solar := e1.solar_harvester.compute_power env
    let e2 := { e1 with sensor := sensor, solar_harvester := solar }
    let Pdemand := sensor.P / (9/10) - solar.P * (9/10)
    let e3 := { e2 with P_demand := Pdemand }
    let r := e3.energy_manager Pdemand
    let e4 := r.2
    let e5 := { e4 with
      supercapacitor := e4.supercapacitor.update o.sqrt r.1.1 e4.dt,
      battery := e4.battery.update o r.1.2 e4.dt }
    some (e5.judge_state, (Pdemand, sensor.P, solar.P, r.1.1, r.1.2))
  else none

/-- One `communication_log` entry of `simulate_node`
(`Node_class.py` lines 115–119). -/
structure CommEvent where
  step : ℕ
  path : List ℕ
  total_cost : WithTop ℚ
deriving DecidableEq

/-- The state variables recorded for one executed step
(`Node_class.py` lines 93–102). -/
structure StepRecord where
  qloss : ℚ
  qvoc : ℚ
  qsoc : ℚ
  qi : ℚ
  qsc : ℚ
  yita : ℚ
  pbat : ℚ
  psc : ℚ
  pdem : ℚ
deriving DecidableEq, Repr

/-- The mutable state of the `simulate_node` loop: the energy system of
the node, the nine preallocated record arrays, the scalar bookkeeping
variables and the shared `node_energy_consumptions` ledger. -/
structure SimState where
  es : Energysystem
  Qloss : List ℚ
  Qvoc : List ℚ
  Qsoc : List ℚ
  Qi : List ℚ
  Qsc : List ℚ
  yita_test : List ℚ
  P_bat : List ℚ
  P_sc : List ℚ
  P_demand : List ℚ
  energy_consumed : ℚ
  switch_count : ℕ
  last : Option Bool
  bluetooth_energy_consumed : ℚ
  log : List CommEvent
  cons : ℕ → ℚ

/-- The communication block of the `simulate_node` loop body
(`Node_class.py` lines 106–123): on an event, route to the mother node
(always keeping the returned ledger); when the path is non-empty, append a
log entry, add the cost to the bluetooth tally and add `total_cost/dt` to
the own `P_demand` bookkeeping field of the node.  No `Energysystem` of
any other node is in scope here. -/
def handleComm (G : WGraph) (mother node step : ℕ) (event_state : ℤ)
    (st : SimState) : SimState :=
  if event_state = 1 then
    let r := communicate_with_mother G node mother st.cons
    let st1 := { st with cons := r.2.2 }
    if r.1 ≠ [] then
      { st1 with
        log := st1.log ++ [{ step := step, path := r.1, total_cost := r.2.1 }],
        bluetooth_energy_consumed :=
          st1.bluetooth_energy_consumed + (r.2.1).untop' 0,
        es := { st1.es with
          P_demand := st1.es.P_demand + (r.2.1).untop' 0 / st1.es.dt } }
    else st1
  else st

/-- One iteration of the `simulate_node` loop (`Node_class.py` lines
70–123).  `Sum.inl` is a `break` (the update returned `None`, i.e. the node
signalled Dead, or `Qloss` crossed the 0.45 safety threshold — in both
cases *before* recording the step); `Sum.inr` carries the new state and the
record written for this step. -/
def simBody (o : Oracles) (G : WGraph) (mother node : ℕ) (En : ℕ → ℚ)
    (event : ℕ → ℤ) (step : ℕ) (st : SimState) :
    SimState ⊕ (SimState × StepRecord) :=
  match st.es.update o (event step) (En step) with
  | none => Sum.inl st
  | some (es1, _) =>
    let st1 := { st with
      es := es1,
      energy_consumed := st.energy_consumed + es1.P_demand * es1.dt }
    let cur : Bool := es1.P_batt > 0
    let st2 := { st1 with
      switch_count := st1.switch_count +
        (if st1.last ≠ none ∧ st1.last ≠ some cur then 1 else 0),
      last := some cur }
    if es1.battery.Qloss > 45/100 then Sum.inl st2
    else
      let r1 : StepRecord :=
        { qloss := es1.battery.Qloss - 1/100, qvoc := es1.battery.Voc,
          qsoc := es1.battery.Soc, qi := es1.battery.I,
          qsc := es1.supercapacitor.Soc, yita := es1.yita,
          pbat := es1.P_batt, psc := es1.P_sc, pdem := es1.P_demand }
      let st3 := { st2 with
        Qloss := st2.Qloss.set step r1.qloss,
        Qvoc := st2.Qvoc.set step r1.qvoc,
        Qsoc := st2.Qsoc.set step r1.qsoc,
        Qi := st2.Qi.set step r1.qi,
        Qsc := st2.Qsc.set step r1.qsc,
        yita_test := st2.yita_test.set step r1.yita,
        P_bat := st2.P_bat.set step r1.pbat,
        P_sc := st2.P_sc.set step r1.psc,
        P_demand := st2.P_demand.set step r1.pdem,
        bluetooth_energy_consumed := 0 }
      Sum.inr (handleComm G mother node step (event step) st3, r1)

/-- The `for step in range(num_steps)` loop of `simulate_node`, returning
the final state together with the final value of the Python loop variable
`step` (the index of the last started iteration). -/
def simLoopGo (o : Oracles) (G : WGraph) (mother node : ℕ) (En : ℕ → ℚ)
    (event : ℕ → ℤ) : List ℕ → SimState → SimState × ℕ
  | [], st => (st, 0)
  | [s], st =>
    match simBody o G mother node En event s st with
    | Sum.inl st2 => (st2, s)
    | Sum.inr (st2, _) => (st2, s)
  | s :: s2 :: rest, st =>
    match simBody o G mother node En event s st with
    | Sum.inl st2 => (st2, s)
    | Sum.inr (st2, _) => simLoopGo o G mother node En event (s2 :: rest) st2

/-- Reference run of the same loop that *appends* the record of every
executed-and-recorded step instead of writing into preallocated arrays:
the list of records, the final state, the exit step, and whether the loop
completed without a `break`.  This is the specification-side recorder the
returned series are compared against. -/
def specLoop (o : Oracles) (G : WGraph) (mother node : ℕ) (En : ℕ → ℚ)
    (event : ℕ → ℤ) : List ℕ → SimState → List StepRecord × SimState × ℕ × Bool
  | [], st => ([], st, 0, true)
  | [s], st =>
    match simBody o G mother node En event s st with
    | Sum.inl st2 => ([], st2, s, false)
    | Sum.inr (st2, r1) => ([r1], st2, s, true)
  | s :: s2 :: rest, st =>
    match simBody o G mother node En event s st with
    | Sum.inl st2 => ([], st2, s, false)
    | Sum.inr (st2, r1) =>
      let r := specLoop o G mother node En event (s2 :: rest) st2
      (r1 :: r.1, r.2)

/-- Initial loop state of `simulate_node` (`Node_class.py` lines 54–68):
zero-filled arrays (ones for `yita_test`) of length `num_steps`.
The Python local `bluetooth_energy_consumed` is first assigned inside the
loop body; it is initialised to 0 here (reaching the end of `simulate_node`
without any iteration having executed line 104 would raise `NameError` in
Python — that path is excluded by the `num_steps = 0` guard below and does
not affect the recorded series). -/
def initSimState (es : Energysystem) (num_steps : ℕ) (cons : ℕ → ℚ) : SimState :=
  { es := es,
    Qloss := List.replicate num_steps 0, Qvoc := List.replicate num_steps 0,
    Qsoc := List.replicate num_steps 0, Qi := List.replicate num_steps 0,
    Qsc := List.replicate num_steps 0,
    yita_test := List.replicate num_steps 1,
    P_bat := List.replicate num_steps 0, P_sc := List.replicate num_steps 0,
    P_demand := List.replicate num_steps 0,
    energy_consumed := 0, switch_count := 0, last := none,
    bluetooth_energy_consumed := 0, log := [], cons := cons }

/-- The dictionary returned by `simulate_node`
(`Node_class.py` lines 126–141), plus the shared consumption ledger that
the Python code mutates in place. -/
structure SimResult where
  Qloss : List ℚ
  Qvoc : List ℚ
  Qsoc : List ℚ
  Qi : List ℚ
  Qsc : List ℚ
  yita_test : List ℚ
  P_bat : List ℚ
  P_sc : List ℚ
  P_demand : List ℚ
  runtime : ℚ
  energy_consumed : ℚ
  switch_count : ℕ
  bluetooth_energy_consumed : ℚ
  communication_log : List CommEvent
  cons : ℕ → ℚ

/-- `simulate_node` of `Node_class.py` (lines 36–141): run the loop, then
return every series sliced with `[:step]` where `step` is the final value
of the loop variable.  `num_steps = 0` is `none`: the Python function would
raise `NameError` at line 124 (`step` unbound). -/
def simulate_node (o : Oracles) (es : Energysystem) (num_steps : ℕ)
    (En : ℕ → ℚ) (event : ℕ → ℤ) (G : WGraph) (mother node : ℕ)
    (cons : ℕ → ℚ) : Option SimResult :=
  if num_steps = 0 then none
  else
    let r := simLoopGo o G mother node En event (List.range num_steps)
      (initSimState es num_steps cons)
    some
      { Qloss := r.1.Qloss.take r.2, Qvoc := r.1.Qvoc.take r.2,
        Qsoc := r.1.Qsoc.take r.2, Qi := r.1.Qi.take r.2,
        Qsc := r.1.Qsc.take r.2, yita_test := r.1.yita_test.take r.2,
        P_bat := r.1.P_bat.take r.2, P_sc := r.1.P_sc.take r.2,
        P_demand := r.1.P_demand.take r.2,
        runtime := (r.2 : ℚ) * r.1.es.dt,
        energy_consumed := r.1.energy_consumed,
        switch_count := r.1.switch_count,
        bluetooth_energy_consumed := r.1.bluetooth_energy_consumed,
        communication_log := r.1.log, cons := r.1.cons }

/-- Applying a power demand `P` to the energy system of a node through the same
interface an ordinary demand takes (`energy_manager` split, then the two
storage-device updates) — what the spec claims happens to every relay node
with `P = −edge_weight`. -/
def injectDemand (o : Oracles) (e : Energysystem) (P : ℚ) : Energysystem :=
  let r := e.energy_manager P
  { r.2 with
    supercapacitor := r.2.supercapacitor.update o.sqrt r.1.1 r.2.dt,
    battery := r.2.battery.update o r.1.2 r.2.dt }

/-- The effect of one communication event on the whole network state
(per-node energy systems, shared ledger, global log), exactly as the code
implements it: `communicate_with_mother` mutates only the ledger
(`Node_class.py` lines 161–181), and the `simulate_node` body of the
triggering node mutates only the `P_demand` field of its *own* system and
its log (lines 104–123) — no `Energysystem` of another node is accessible
there, so
none is touched. -/
def networkCommEffect (G : WGraph) (mother source : ℕ)
    (systems : ℕ → Energysystem) (cons : ℕ → ℚ) (log : List CommEvent)
    (step : ℕ) : (ℕ → Energysystem) × (ℕ → ℚ) × List CommEvent :=
  let r := communicate_with_mother G source mother cons
  if r.1 ≠ [] then
    (Function.update systems source
        { systems source with
          P_demand := (systems source).P_demand +
            (r.2.1).untop' 0 / (systems source).dt },
      r.2.2,
      log ++ [{ step := step, path := r.1, total_cost := r.2.1 }])
  else (systems, r.2.2, log)

/-- A 3-node line graph 0 – 1 – 2 (both edges weight 10): the only route
from 0 to 2 relays through node 1. -/
def wLine : ℕ → ℕ → Option ℚ := fun u v =>
  if (u = 0 ∧ v = 1) ∨ (u = 1 ∧ v = 0) then some 10
  else if (u = 1 ∧ v = 2) ∨ (u = 2 ∧ v = 1) then some 10
  else none

/-- The 3-node line graph. -/
def GLine : WGraph := { nodes := [0, 1, 2], weight := wLine }

/-- Every node of the line network runs the battery-only system. -/
def lineSystems : ℕ → Energysystem := fun _ => emBattOnly

/-- Oracle for the concrete simulation runs: exact square root at the one
consulted point (`√16 = 4`); constant positive exponential/power oracles. -/
def oSim : Oracles := { sqrt := sqSixteen, exp := fun _ => 1, rpow := fun _ _ => 1 }

/-- A concrete loop state for the routing witnesses. -/
def stProbe : SimState := initSimState emBattOnly 2 consZero

/-- The reference recording of a whole `simulate_node` run: the appended
step records, the final state, the exit step, and the completed-without-
break flag. -/
def nodeRunRecords (o : Oracles) (es : Energysystem) (n : ℕ) (En : ℕ → ℚ)
    (event : ℕ → ℤ) (G : WGraph) (mother node : ℕ) (cons : ℕ → ℚ) :
    List StepRecord × SimState × ℕ × Bool :=
  specLoop o G mother node En event (List.range n) (initSimState es n cons)

/-! ## Theorems about the SuperCapacitor -/

/-- **C5.** For every supercapacitor state with `Voc ∈ [Vm/4, Vm]` and every
`SuperCapacitor.update` call (any applied power, any positive `dt`, any
square-root oracle), the `Voc` after the update still lies in `[Vm/4, Vm]`:
the rejected and infeasible paths leave `Voc` unchanged and the main path
clamps it into the band. -/
theorem supercapacitor_voc_stays_in_band (sq : ℚ → ℚ) (s : SuperCapacitor)
    (Psys dt : ℚ) (_hdt : 0 < dt) (hlo : s.Vm / 4 ≤ s.Voc) (hhi : s.Voc ≤ s.Vm) :
    s.Vm / 4 ≤ (s.update sq Psys dt).Voc ∧ (s.update sq Psys dt).Voc ≤ s.Vm := by
  unfold SuperCapacitor.update
  dsimp only
  split_ifs with h1 h2 h3 h4 h5 <;> simp_all <;>
    first
    | (constructor <;> linarith)
    | linarith

/-- Witness for C5: a concrete in-band update keeps `Voc` in the band. -/
theorem supercapacitor_voc_stays_in_band_witness :
    scProbe.Vm / 4 ≤ (scProbe.update sqNine 16 1).Voc ∧
      (scProbe.update sqNine 16 1).Voc ≤ scProbe.Vm :=
  supercapacitor_voc_stays_in_band sqNine scProbe 16 1 (by norm_num)
    (by norm_num [scProbe]) (by norm_num [scProbe])

/-- **C6, counterexample.** The claim says that after every state-changing
update `Soc = Voc/Vm` for the clamped `Voc`, hence `Soc ∈ [0.25, 1]`.  In the
code `Soc` is computed from the *pre-clamp* voltage (line 141 of `comp.py`)
and is not recomputed after the clamp (lines 144–151).  Discharging `scProbe`
at 16 W for 1 s makes the second energy balance infeasible, so `Voc` falls
back to 0, `Soc` is set to `0/Vm = 0`, and then `Voc` alone is clamped to
`Vm/4`: the final state has `Soc = 0 ≠ Voc/Vm = 1/4` and `Soc ∉ [0.25, 1]`,
although the update changed the stored state. -/
theorem supercapacitor_soc_clamp_counterexample :
    (scProbe.update sqNine 16 1).state ≠ scProbe.state ∧
      (scProbe.update sqNine 16 1).Soc ≠
        (scProbe.update sqNine 16 1).Voc / (scProbe.update sqNine 16 1).Vm ∧
      ¬(1/4 ≤ (scProbe.update sqNine 16 1).Soc) := by
  norm_num [SuperCapacitor.update, scProbe, sqNine]

/-- **C6, amended.** After every `SuperCapacitor.update` call that takes the
main path (not rejected, first energy balance feasible) and whose final
discrete state is Normal (1) — i.e. the clamp did not fire and the second
energy balance did not fall back — `Soc` equals `Voc/Vm` for the final `Voc`
and `Soc` lies strictly inside `(1/4, 1)` (hence in `[0.25, 1]`). -/
theorem supercapacitor_soc_eq_voc_div_vm_when_normal (sq : ℚ → ℚ)
    (s : SuperCapacitor) (Psys dt : ℚ) (hVm : 0 < s.Vm)
    (hr1 : ¬(Psys > 0 ∧ s.state = 0)) (hr2 : ¬(Psys < 0 ∧ s.state = 2))
    (hfeas : ¬(s.Voc ^ 2 - 2 * Psys * dt / s.C < 0))
    (hnorm : (s.update sq Psys dt).state = 1) :
    (s.update sq Psys dt).Soc =
        (s.update sq Psys dt).Voc / (s.update sq Psys dt).Vm ∧
      1/4 ≤ (s.update sq Psys dt).Soc ∧ (s.update sq Psys dt).Soc ≤ 1 := by
  unfold SuperCapacitor.update at hnorm ⊢
  dsimp only at hnorm ⊢
  rw [if_neg hr1, if_neg hr2, if_neg hfeas] at hnorm ⊢
  split_ifs at hnorm ⊢ with ha hb hc hd he
  · simp at hnorm
  · simp at hnorm
  · exact absurd (by linarith : (0:ℚ) ≤ s.Vm / 4) hc
  · simp at hnorm
  · simp at hnorm
  · rw [ge_iff_le, not_le] at hd
    rw [not_le] at he
    refine ⟨rfl, ?_, ?_⟩
    · rw [le_div_iff₀ hVm]
      linarith
    · rw [div_le_one hVm]
      linarith

/-- Witness for the amended C6: a zero-power update of an in-band
supercapacitor lands in the Normal state with `Soc = Voc/Vm ∈ [1/4, 1]`. -/
theorem supercapacitor_soc_eq_voc_div_vm_when_normal_witness :
    (scNormal.update sqSixteen 0 1).Soc =
        (scNormal.update sqSixteen 0 1).Voc / (scNormal.update sqSixteen 0 1).Vm ∧
      1/4 ≤ (scNormal.update sqSixteen 0 1).Soc ∧
        (scNormal.update sqSixteen 0 1).Soc ≤ 1 :=
  supercapacitor_soc_eq_voc_div_vm_when_normal sqSixteen scNormal 0 1
    (by norm_num [scNormal]) (by norm_num [scNormal]) (by norm_num [scNormal])
    (by norm_num [scNormal])
    (by norm_num [SuperCapacitor.update, scNormal, sqSixteen])

/-- **C10.** Every `SuperCapacitor.update` call that is rejected (discharging
while Empty, charging while Full) or whose first energy-balance square root
is infeasible leaves `Voc`, `Soc` and `state` (indeed every field) unchanged,
but always overwrites `Psc` with the applied power: the result is exactly the
input state with `Psc := Psys`. -/
theorem supercapacitor_rejected_update_frame (sq : ℚ → ℚ) (s : SuperCapacitor)
    (Psys dt : ℚ)
    (h : (Psys > 0 ∧ s.state = 0) ∨ (Psys < 0 ∧ s.state = 2) ∨
      s.Voc ^ 2 - 2 * Psys * dt / s.C < 0) :
    s.update sq Psys dt = { s with Psc := Psys } := by
  unfold SuperCapacitor.update
  dsimp only
  by_cases h1 : Psys > 0 ∧ s.state = 0
  · rw [if_pos h1]
  · rw [if_neg h1]
    by_cases h2 : Psys < 0 ∧ s.state = 2
    · rw [if_pos h2]
    · rw [if_neg h2]
      have h3 : s.Voc ^ 2 - 2 * Psys * dt / s.C < 0 := by tauto
      rw [if_pos h3]

/-- Witness for C10: charging the full `scProbe` is rejected and only `Psc`
changes. -/
theorem supercapacitor_rejected_update_frame_witness :
    scProbe.update sqNine (-1) 1 = { scProbe with Psc := -1 } :=
  supercapacitor_rejected_update_frame sqNine scProbe (-1) 1
    (Or.inr (Or.inl ⟨by norm_num, by norm_num [scProbe]⟩))

/-! ## Theorems about the LiBattery -/

/-- **C7.** Once a battery is Dead (state −1), every further
`LiBattery.update` call — any power demand, any `dt`, any oracle — leaves
the state Dead and modifies no field other than the power-demand check
`P_check`: the result is exactly the input with `P_check := Pdemand`.
In particular `Soc`, `Voc`, `Qloss` and `I` are unchanged. -/
theorem battery_dead_is_absorbing (o : Oracles) (b : LiBattery) (Pdemand dt : ℚ)
    (h : b.state = -1) :
    b.update o Pdemand dt = { b with P_check := Pdemand } := by
  unfold LiBattery.update
  dsimp only
  rw [if_neg (by simp [h]), if_neg (by simp [h]), if_neg (by simp [h])]

/-- Witness for C7: updating the dead `battDead` only rewrites `P_check`. -/
theorem battery_dead_is_absorbing_witness :
    battDead.update oBattProbe 5 1 = { battDead with P_check := 5 } :=
  battery_dead_is_absorbing oBattProbe battDead 5 1 (by norm_num [battDead])

/-- **C2, counterexample.** `Qloss` is *not* non-decreasing over every run.
Starting from a freshly constructed battery (`battCex0`), the four-update
run `battCex1 … battCex4` (hard discharge to Empty; discharge while Empty,
which forces the sentinel `Qloss = 0.1`; a small charge that keeps the state
Empty while degradation pushes `Qloss` above 0.1; another discharge while
Empty) ends with the sentinel overwriting `Qloss` with `0.1`, strictly
*below* its previous value.  Only positivity of the exponential/power
oracles is involved, so the decrease occurs for any faithful rounding of
`math.exp` and `**`. -/
theorem battery_qloss_decrease_counterexample :
    battCex4.Qloss < battCex3.Qloss := by
  norm_num [battCex4, battCex3, battCex2, battCex1, battCex0, LiBattery.init,
    LiBattery.update, LiBattery.update_voc, curveVoc, oBattProbe, sqBatt,
    flatCurve4, LiZ, LiB0, LiB1, LiAr, LiRr, abs_of_nonneg, abs_of_nonpos]

/-- **C2, amended.** Across every single `LiBattery.update` call (sound
oracle, positive current capacity loss), `Qloss` never falls below
`min Qloss 0.1`; and on every call that is *not* a discharge in the Empty
state — in particular along any run that never discharges an empty battery —
`Qloss` is non-decreasing.  The only decrease the code allows is the
sentinel branch (discharge while Empty) writing the constant `0.1` over a
larger `Qloss`. -/
theorem battery_qloss_lower_bound (o : Oracles) (hs : o.Sound) (b : LiBattery)
    (Pdemand dt : ℚ) (hq : 0 < b.Qloss) :
    min b.Qloss (1/10) ≤ (b.update o Pdemand dt).Qloss ∧
      (¬(Pdemand > 0 ∧ b.state = 0) → b.Qloss ≤ (b.update o Pdemand dt).Qloss) := by
  have hdQ : ∀ A bf : ℚ, 0 ≤ |A| * LiZ * o.exp bf * o.rpow b.Qloss ((LiZ - 1) / LiZ) := by
    intro A bf
    have h1 : (0:ℚ) ≤ |A| * LiZ := by
      have : (0:ℚ) < LiZ := by norm_num [LiZ]
      positivity
    have h2 : (0:ℚ) ≤ o.exp bf := le_of_lt (hs.exp_pos bf)
    have h3 : (0:ℚ) ≤ o.rpow b.Qloss ((LiZ - 1) / LiZ) :=
      le_of_lt (hs.rpow_pos _ _ hq)
    exact mul_nonneg (mul_nonneg h1 h2) h3
  unfold LiBattery.update
  dsimp only
  by_cases h1 : Pdemand > 0 ∧ b.state = 0
  · rw [if_pos h1]
    exact ⟨min_le_right _ _, fun hc => absurd h1 hc⟩
  · rw [if_neg h1]
    by_cases h2 : Pdemand < 0 ∧ b.state = 2
    · rw [if_pos h2]
      exact ⟨min_le_left _ _, fun _ => le_refl _⟩
    · rw [if_neg h2]
      by_cases h3 : b.state ≠ -1
      · rw [if_pos h3]
        exact ⟨le_trans (min_le_left _ _) (le_add_of_nonneg_right (hdQ _ _)),
          fun _ => le_add_of_nonneg_right (hdQ _ _)⟩
      · rw [if_neg h3]
        exact ⟨min_le_left _ _, fun _ => le_refl _⟩

/-- Witness for the amended C2: one concrete non-sentinel update does not
decrease `Qloss`. -/
theorem battery_qloss_lower_bound_witness :
    min battCex0.Qloss (1/10) ≤ (battCex0.update oBattProbe (150/23) (143451/125)).Qloss ∧
      (¬((150/23 : ℚ) > 0 ∧ battCex0.state = 0) →
        battCex0.Qloss ≤ (battCex0.update oBattProbe (150/23) (143451/125)).Qloss) :=
  battery_qloss_lower_bound oBattProbe
    ⟨fun q _ => by
        by_cases h4 : q = 4 <;> by_cases h36 : q = 36 <;>
          simp [oBattProbe, sqBatt, h4, h36],
      fun q => by norm_num [oBattProbe],
      fun x y _ => by norm_num [oBattProbe]⟩
    battCex0 (150/23) (143451/125)
    (by norm_num [battCex0, LiBattery.init, LiBattery.update_voc])

/-! ## Theorems about the energy manager -/

/-- **C1, counterexample.** The allocation of `energy_manager` does *not*
always sum to the demand for policy 6: with the supercapacitor Full, a
charging demand `Pdemand = −6 < −5·Ps_a`, and battery SOC 0.75, the code
rescales the battery share by `min((1−k3·k4−(1−k4)·Soc)/(1−k3), 1) = 5/34`,
so `P_SC + P_Bat = −15/17 ≠ −6`. -/
theorem energy_manager_sum_counterexample :
    emCex.management = 6 ∧
      ((emCex.energy_manager (-6)).1).1 + ((emCex.energy_manager (-6)).1).2 ≠ -6 := by
  constructor
  · norm_num [emCex]
  · norm_num [Energysystem.energy_manager, emCex, solarBright, min_def]

/-- **C1, amended.** For policies 1–5 the returned pair always satisfies
`P_SC + P_Bat = Pdemand` exactly; for policy 6 the same holds except in the
rescaling branch (a charging demand below `−5·Ps_a` while the supercapacitor
is Full), where the battery share is scaled by the adaptive efficiency
factor. -/
theorem energy_manager_allocation_sums_to_demand (e : Energysystem) (Pdemand : ℚ)
    (h : e.management = 1 ∨ e.management = 2 ∨ e.management = 3 ∨
      e.management = 4 ∨ e.management = 5 ∨
      (e.management = 6 ∧
        ¬(¬Pdemand > 0 ∧ e.supercapacitor.state = 2 ∧ Pdemand < -5 * e.Ps_a))) :
    ((e.energy_manager Pdemand).1).1 + ((e.energy_manager Pdemand).1).2 = Pdemand := by
  rcases h with h | h | h | h | h | ⟨h, hex⟩
  · simp [Energysystem.energy_manager, h]
  · simp only [Energysystem.energy_manager, h]
    norm_num
    split_ifs <;> ring
  · simp only [Energysystem.energy_manager, h]
    norm_num
    split_ifs <;> ring
  · simp only [Energysystem.energy_manager, h]
    norm_num
    split_ifs <;> ring
  · simp only [Energysystem.energy_manager, h]
    norm_num
    split_ifs <;> (try simp only [Prod.fst_zero, Prod.snd_zero]) <;> ring
  · simp only [Energysystem.energy_manager, h]
    norm_num
    split_ifs with h1 h2 h3 h4 h5 h6 h7 h8
    all_goals try simp only [Prod.fst_zero, Prod.snd_zero]
    all_goals try ring
    all_goals
      exact absurd (show ¬Pdemand > 0 ∧ e.supercapacitor.state = 2 ∧
        Pdemand < -5 * e.Ps_a from ⟨fun hc => h1 hc, h5, by linarith⟩) hex

/-- Witness for the amended C1: the battery-only policy allocates the whole
demand to the battery, so the pair sums to the demand. -/
theorem energy_manager_allocation_sums_to_demand_witness :
    ((emBattOnly.energy_manager 5).1).1 + ((emBattOnly.energy_manager 5).1).2 = 5 :=
  energy_manager_allocation_sums_to_demand emBattOnly 5
    (Or.inl (by norm_num [emBattOnly, emCex]))

/-! ## Routing lemmas -/

theorem edgeW_nonneg (G : WGraph) (hnn : G.NonnegW) (u v : ℕ) : 0 ≤ edgeW G u v := by
  unfold edgeW
  cases h : G.weight u v with
  | none => simp
  | some w => simpa using hnn u v w h

theorem pathWeight_nonneg (G : WGraph) (hnn : G.NonnegW) :
    ∀ p : List ℕ, 0 ≤ pathWeight G p
  | [] => le_refl 0
  | [_] => le_refl 0
  | u :: v :: rest => by
    have h1 := edgeW_nonneg G hnn u v
    have h2 := pathWeight_nonneg G hnn (v :: rest)
    simp only [pathWeight]
    linarith

theorem pathWeight_append (G : WGraph) :
    ∀ (xs : List ℕ) (y : ℕ) (ys : List ℕ),
      pathWeight G (xs ++ y :: ys) = pathWeight G (xs ++ [y]) + pathWeight G (y :: ys)
  | [], y, ys => by simp [pathWeight]
  | [x], y, ys => by simp [pathWeight]
  | x1 :: x2 :: xs, y, ys => by
    have ih := pathWeight_append G (x2 :: xs) y ys
    simp only [List.cons_append, List.append_eq, pathWeight] at ih ⊢
    linarith

theorem pathsAux_sound (G : WGraph) (t : ℕ) :
    ∀ (fuel : ℕ) (u : ℕ) (visited : List ℕ) (p : List ℕ),
      u ∈ visited → p ∈ pathsAux G t fuel u visited →
      p.head? = some u ∧ p.getLast? = some t ∧
        List.Chain' (fun a b => G.adj a b = true) p ∧ p.Nodup ∧
        ∀ x ∈ p.tail, x ∉ visited := by
  intro fuel
  induction fuel with
  | zero =>
    intro u visited p _ hp
    simp [pathsAux] at hp
  | succ n ih =>
    intro u visited p hu hp
    unfold pathsAux at hp
    by_cases hut : u = t
    · rw [if_pos hut] at hp
      simp only [List.mem_singleton] at hp
      subst hp
      subst hut
      refine ⟨rfl, rfl, List.chain'_singleton u, List.nodup_singleton u, ?_⟩
      simp
    · rw [if_neg hut] at hp
      simp only [List.mem_flatMap, List.mem_map, List.mem_filter] at hp
      obtain ⟨v, ⟨hvnode, hvcond⟩, q, hq, rfl⟩ := hp
      have hadj : G.adj u v = true := by
        simp only [Bool.and_eq_true] at hvcond
        exact hvcond.1
      have hvis : v ∉ visited := by
        simp only [Bool.and_eq_true] at hvcond
        simpa using hvcond.2
      obtain ⟨hqh, hql, hqc, hqn, hqt⟩ :=
        ih v (v :: visited) q (List.mem_cons_self v visited) hq
      obtain ⟨q', rfl⟩ : ∃ q', q = v :: q' := by
        cases q with
        | nil => simp at hqh
        | cons a q' =>
          simp only [List.head?_cons, Option.some.injEq] at hqh
          subst hqh
          exact ⟨q', rfl⟩
      have htail : ∀ x ∈ v :: q', x ∉ visited := by
        intro x hx
        rcases List.mem_cons.mp hx with rfl | hx'
        · exact hvis
        · intro hxv
          exact hqt x hx' (List.mem_cons_of_mem v hxv)
      refine ⟨rfl, ?_, ?_, ?_, ?_⟩
      · rwa [List.getLast?_cons_cons]
      · exact List.chain'_cons.mpr ⟨hadj, hqc⟩
      · refine List.nodup_cons.mpr ⟨?_, hqn⟩
        intro huq
        exact htail u huq hu
      · intro x hx
        exact htail x hx

theorem mem_of_getLast?_eq {l : List ℕ} {a : ℕ} (h : l.getLast? = some a) : a ∈ l := by
  obtain ⟨hne, rfl⟩ := List.mem_getLast?_eq_getLast (show a ∈ l.getLast? by simp [h])
  exact List.getLast_mem hne

theorem chain_tail_mem_nodes (G : WGraph) (hWF : G.WF) :
    ∀ p : List ℕ, List.Chain' (fun a b => G.adj a b = true) p →
      ∀ x ∈ p.tail, x ∈ G.nodes
  | [] => by intro _ x hx; simp at hx
  | [u] => by intro _ x hx; simp at hx
  | u :: v :: rest => by
    intro hc x hx
    rw [List.chain'_cons] at hc
    rcases List.mem_cons.mp hx with rfl | hx'
    · exact (hWF.2 u x hc.1).2
    · exact chain_tail_mem_nodes G hWF (v :: rest) hc.2 x hx'

theorem nodup_subset_length_le {p l : List ℕ} (hp : p.Nodup)
    (hsub : ∀ x ∈ p, x ∈ l) : p.length ≤ l.length := by
  calc p.length = p.toFinset.card := (List.toFinset_card_of_nodup hp).symm
    _ ≤ l.toFinset.card := Finset.card_le_card (fun x hx => by
        simp only [List.mem_toFinset] at hx ⊢
        exact hsub x hx)
    _ ≤ l.length := l.toFinset_card_le

theorem pathsAux_complete (G : WGraph) (t : ℕ) (hWF : G.WF) :
    ∀ (fuel : ℕ) (u : ℕ) (visited : List ℕ) (p : List ℕ),
      p.head? = some u → p.getLast? = some t →
      List.Chain' (fun a b => G.adj a b = true) p → p.Nodup →
      (∀ x ∈ p.tail, x ∉ visited) → p.length ≤ fuel →
      p ∈ pathsAux G t fuel u visited := by
  intro fuel
  induction fuel with
  | zero =>
    intro u visited p hh _ _ _ _ hlen
    cases p with
    | nil => simp at hh
    | cons a q => simp at hlen
  | succ n ih =>
    intro u visited p hh hl hc hn ht hlen
    obtain ⟨q, rfl⟩ : ∃ q, p = u :: q := by
      cases p with
      | nil => simp at hh
      | cons a q =>
        simp only [List.head?_cons, Option.some.injEq] at hh
        subst hh
        exact ⟨q, rfl⟩
    unfold pathsAux
    by_cases hut : u = t
    · rw [if_pos hut]
      subst hut
      cases q with
      | nil => simp
      | cons v q' =>
        exfalso
        have hlast : (v :: q').getLast? = some u := by
          rwa [List.getLast?_cons_cons] at hl
        exact (List.nodup_cons.mp hn).1 (mem_of_getLast?_eq hlast)
    · rw [if_neg hut]
      cases q with
      | nil =>
        simp only [List.getLast?_singleton, Option.some.injEq] at hl
        exact absurd hl hut
      | cons v q' =>
        simp only [List.mem_flatMap, List.mem_map, List.mem_filter]
        have hadj : G.adj u v = true := (List.chain'_cons.mp hc).1
        have hvtail : v ∉ visited := ht v (by simp)
        refine ⟨v, ⟨(hWF.2 u v hadj).2, by simp [hadj, hvtail]⟩, v :: q', ?_, rfl⟩
        apply ih v (v :: visited) (v :: q') rfl
        · rwa [List.getLast?_cons_cons] at hl
        · exact (List.chain'_cons.mp hc).2
        · exact (List.nodup_cons.mp hn).2
        · intro x hx hxv
          rcases List.mem_cons.mp hxv with rfl | hxvis
          · exact (List.nodup_cons.mp (List.nodup_cons.mp hn).2).1 hx
          · exact ht x (List.mem_cons_of_mem v hx) hxvis
        · simpa using Nat.le_of_succ_le_succ hlen

theorem pickMin_spec (G : WGraph) :
    ∀ (l : List (List ℕ)) (p0 : List ℕ),
      pickMin G p0 l ∈ p0 :: l ∧
        pathWeight G (pickMin G p0 l) ≤ pathWeight G p0 ∧
        ∀ q ∈ l, pathWeight G (pickMin G p0 l) ≤ pathWeight G q := by
  intro l
  induction l with
  | nil =>
    intro p0
    refine ⟨by simp [pickMin], le_refl _, by simp⟩
  | cons a l ih =>
    intro p0
    have hstep : pickMin G p0 (a :: l) =
        pickMin G (if pathWeight G a < pathWeight G p0 then a else p0) l := by
      simp [pickMin]
    by_cases h : pathWeight G a < pathWeight G p0
    · rw [hstep, if_pos h]
      obtain ⟨hmem, hle, hall⟩ := ih a
      refine ⟨?_, le_trans hle (le_of_lt h), ?_⟩
      · rcases List.mem_cons.mp hmem with he | hm
        · rw [he]
          exact List.mem_cons_of_mem _ (List.mem_cons_self _ _)
        · exact List.mem_cons_of_mem _ (List.mem_cons_of_mem _ hm)
      · intro q hq
        rcases List.mem_cons.mp hq with rfl | hq'
        · exact hle
        · exact hall q hq'
    · rw [hstep, if_neg h]
      obtain ⟨hmem, hle, hall⟩ := ih p0
      refine ⟨?_, hle, ?_⟩
      · rcases List.mem_cons.mp hmem with he | hm
        · rw [he]
          exact List.mem_cons_self _ _
        · exact List.mem_cons_of_mem _ (List.mem_cons_of_mem _ hm)
      · intro q hq
        rcases List.mem_cons.mp hq with rfl | hq'
        · exact le_trans hle (not_lt.mp h)
        · exact hall q hq'

theorem minPath_spec (G : WGraph) (l : List (List ℕ)) (p : List ℕ)
    (h : minPath G l = some p) :
    p ∈ l ∧ ∀ q ∈ l, pathWeight G p ≤ pathWeight G q := by
  cases l with
  | nil => simp [minPath] at h
  | cons a l =>
    simp only [minPath, Option.some.injEq] at h
    subst h
    obtain ⟨hmem, hle, hall⟩ := pickMin_spec G l a
    refine ⟨hmem, ?_⟩
    intro q hq
    rcases List.mem_cons.mp hq with rfl | hq'
    · exact hle
    · exact hall q hq'

theorem minPath_isSome (G : WGraph) (l : List (List ℕ)) (hne : l ≠ []) :
    ∃ p, minPath G l = some p := by
  cases l with
  | nil => exact absurd rfl hne
  | cons a l => exact ⟨pickMin G a l, rfl⟩

theorem dedup_path (G : WGraph) (hnn : G.NonnegW) :
    ∀ (n : ℕ) (p : List ℕ), p.length ≤ n →
      List.Chain' (fun a b => G.adj a b = true) p →
      ∃ q, q.head? = p.head? ∧ q.getLast? = p.getLast? ∧
        List.Chain' (fun a b => G.adj a b = true) q ∧ q.Nodup ∧
        (∀ x ∈ q, x ∈ p) ∧ pathWeight G q ≤ pathWeight G p := by
  intro n
  induction n with
  | zero =>
    intro p hlen hc
    have : p = [] := List.length_eq_zero.mp (Nat.le_zero.mp hlen)
    subst this
    exact ⟨[], rfl, rfl, List.chain'_nil, List.nodup_nil, fun x hx => hx, le_refl _⟩
  | succ n ih =>
    intro p hlen hc
    by_cases hnd : p.Nodup
    · exact ⟨p, rfl, rfl, hc, hnd, fun x hx => hx, le_refl _⟩
    cases p with
    | nil => exact absurd List.nodup_nil hnd
    | cons u rest =>
      by_cases hur : u ∈ rest
      · obtain ⟨l1, l2, rfl⟩ := List.append_of_mem hur
        have hsplit : u :: (l1 ++ u :: l2) = (u :: l1) ++ (u :: l2) := by simp
        have hchain2 : List.Chain' (fun a b => G.adj a b = true) (u :: l2) := by
          rw [hsplit] at hc
          exact hc.right_of_append
        have hlen2 : (u :: l2).length ≤ n := by
          simp only [List.length_cons, List.length_append] at hlen ⊢
          omega
        obtain ⟨q, hqh, hql, hqc, hqn, hqsub, hqw⟩ := ih (u :: l2) hlen2 hchain2
        refine ⟨q, ?_, ?_, hqc, hqn, ?_, ?_⟩
        · rw [hqh]
          rfl
        · rw [hql, hsplit]
          exact (List.getLast?_append_cons (u :: l1) u l2).symm
        · intro x hx
          have := hqsub x hx
          rcases List.mem_cons.mp this with rfl | hx'
          · exact List.mem_cons_self _ _
          · exact List.mem_cons_of_mem _ (List.mem_append_right l1 (List.mem_cons_of_mem u hx'))
        · have hfirst : List.Chain' (fun a b => G.adj a b = true) ((u :: l1) ++ [u]) := by
            rw [hsplit] at hc
            refine List.Chain'.prefix hc ⟨l2, ?_⟩
            simp
          have hw1 : 0 ≤ pathWeight G ((u :: l1) ++ [u]) := pathWeight_nonneg G hnn _
          have hsplitW : pathWeight G (u :: (l1 ++ u :: l2)) =
              pathWeight G ((u :: l1) ++ [u]) + pathWeight G (u :: l2) := by
            rw [show u :: (l1 ++ u :: l2) = (u :: l1) ++ u :: l2 by simp]
            exact pathWeight_append G (u :: l1) u l2
          rw [hsplitW]
          linarith
      · have hrnd : ¬rest.Nodup := fun h => hnd (List.nodup_cons.mpr ⟨hur, h⟩)
        cases rest with
        | nil => exact absurd List.nodup_nil hrnd
        | cons v rest2 =>
          have hc2 : List.Chain' (fun a b => G.adj a b = true) (v :: rest2) :=
            (List.chain'_cons.mp hc).2
          have hlen2 : (v :: rest2).length ≤ n := by
            simp only [List.length_cons] at hlen ⊢
            omega
          obtain ⟨q, hqh, hql, hqc, hqn, hqsub, hqw⟩ := ih (v :: rest2) hlen2 hc2
          obtain ⟨q2, rfl⟩ : ∃ q2, q = v :: q2 := by
            cases q with
            | nil => simp at hqh
            | cons b q2 =>
              simp only [List.head?_cons, Option.some.injEq] at hqh
              subst hqh
              exact ⟨q2, rfl⟩
          refine ⟨u :: v :: q2, rfl, ?_, ?_, ?_, ?_, ?_⟩
          · rw [List.getLast?_cons_cons, hql, List.getLast?_cons_cons]
          · exact List.chain'_cons.mpr ⟨(List.chain'_cons.mp hc).1, hqc⟩
          · refine List.nodup_cons.mpr ⟨?_, hqn⟩
            intro hu
            exact hur (hqsub u hu)
          · intro x hx
            rcases List.mem_cons.mp hx with rfl | hx'
            · exact List.mem_cons_self _ _
            · exact List.mem_cons_of_mem _ (hqsub x hx')
          · simp only [pathWeight]
            linarith

theorem allSimplePaths_sound (G : WGraph) (s t : ℕ) (p : List ℕ)
    (hp : p ∈ allSimplePaths G s t) : IsPathFrom G s t p ∧ p.Nodup := by
  obtain ⟨hh, hl, hc, hn, _⟩ :=
    pathsAux_sound G t G.nodes.length s [s] p (List.mem_singleton_self s) hp
  have hne : p ≠ [] := by
    intro h
    rw [h] at hh
    simp at hh
  exact ⟨⟨hne, hh, hl, hc⟩, hn⟩

theorem allSimplePaths_complete (G : WGraph) (s t : ℕ) (hWF : G.WF)
    (hs : s ∈ G.nodes) (p : List ℕ) (hp : IsPathFrom G s t p) (hn : p.Nodup) :
    p ∈ allSimplePaths G s t := by
  obtain ⟨hne, hh, hl, hc⟩ := hp
  obtain ⟨p2, rfl⟩ : ∃ p2, p = s :: p2 := by
    cases p with
    | nil => exact absurd rfl hne
    | cons a q =>
      simp only [List.head?_cons, Option.some.injEq] at hh
      subst hh
      exact ⟨q, rfl⟩
  apply pathsAux_complete G t hWF _ s [s] _ hh hl hc hn
  · intro x hx hxs
    rcases List.mem_singleton.mp hxs with rfl
    exact (List.nodup_cons.mp hn).1 hx
  · apply nodup_subset_length_le hn
    intro x hx
    rcases List.mem_cons.mp hx with rfl | hx'
    · exact hs
    · exact chain_tail_mem_nodes G hWF _ hc x hx'

theorem dijkstra_path_spec (G : WGraph) (s t : ℕ) (hWF : G.WF) (hnn : G.NonnegW)
    (hs : s ∈ G.nodes) (p : List ℕ) (hp : dijkstra_path G s t = some p) :
    IsPathFrom G s t p ∧ p.Nodup ∧
      ∀ q, IsPathFrom G s t q → pathWeight G p ≤ pathWeight G q := by
  unfold dijkstra_path at hp
  obtain ⟨hmem, hmin⟩ := minPath_spec G _ p hp
  obtain ⟨hpath, hnd⟩ := allSimplePaths_sound G s t p hmem
  refine ⟨hpath, hnd, ?_⟩
  intro q hq
  obtain ⟨q2, hq2h, hq2l, hq2c, hq2n, _, hq2w⟩ :=
    dedup_path G hnn q.length q (le_refl _) hq.2.2.2
  have hq2ne : q2 ≠ [] := by
    intro he
    rw [he, hq.2.1] at hq2h
    simp at hq2h
  have hq2path : IsPathFrom G s t q2 :=
    ⟨hq2ne, hq2h.trans hq.2.1, hq2l.trans hq.2.2.1, hq2c⟩
  have hmemq2 := allSimplePaths_complete G s t hWF hs q2 hq2path hq2n
  exact le_trans (hmin q2 hmemq2) hq2w

theorem dijkstra_path_reachable (G : WGraph) (s t : ℕ) (hWF : G.WF)
    (hnn : G.NonnegW) (hs : s ∈ G.nodes) (hreach : ∃ q, IsPathFrom G s t q) :
    ∃ p, dijkstra_path G s t = some p := by
  obtain ⟨q, hq⟩ := hreach
  obtain ⟨q2, hq2h, hq2l, hq2c, hq2n, _, _⟩ :=
    dedup_path G hnn q.length q (le_refl _) hq.2.2.2
  have hq2ne : q2 ≠ [] := by
    intro he
    rw [he, hq.2.1] at hq2h
    simp at hq2h
  have hq2path : IsPathFrom G s t q2 :=
    ⟨hq2ne, hq2h.trans hq.2.1, hq2l.trans hq.2.2.1, hq2c⟩
  have hmemq2 := allSimplePaths_complete G s t hWF hs q2 hq2path hq2n
  exact minPath_isSome G _ (List.ne_nil_of_mem hmemq2)

theorem dijkstra_path_unreachable (G : WGraph) (s t : ℕ)
    (hunreach : ¬∃ p, IsPathFrom G s t p) : dijkstra_path G s t = none := by
  cases h : dijkstra_path G s t with
  | none => rfl
  | some p =>
    exfalso
    unfold dijkstra_path at h
    obtain ⟨hmem, _⟩ := minPath_spec G _ p h
    exact hunreach ⟨p, (allSimplePaths_sound G s t p hmem).1⟩

theorem chargeHops_total (G : WGraph) :
    ∀ (p : List ℕ) (cons : ℕ → ℚ) (acc : ℚ),
      (chargeHops G p cons acc).2 = acc + pathWeight G p
  | [], cons, acc => by simp [chargeHops, pathWeight]
  | [u], cons, acc => by simp [chargeHops, pathWeight]
  | u :: v :: rest, cons, acc => by
    show (chargeHops G (v :: rest) _ (acc + edgeW G u v)).2 = _
    rw [chargeHops_total G (v :: rest) _ _]
    simp only [pathWeight]
    ring

theorem chargeHops_not_mem (G : WGraph) :
    ∀ (p : List ℕ) (cons : ℕ → ℚ) (acc : ℚ) (x : ℕ), x ∉ p.dropLast →
      (chargeHops G p cons acc).1 x = cons x
  | [], _, _, _, _ => rfl
  | [_], _, _, _, _ => rfl
  | u :: v :: rest, cons, acc, x, hx => by
    rw [List.dropLast_cons₂, List.mem_cons, not_or] at hx
    show (chargeHops G (v :: rest) (Function.update cons u (cons u + edgeW G u v)) _).1 x = _
    rw [chargeHops_not_mem G (v :: rest) _ _ x hx.2]
    exact Function.update_noteq hx.1 _ cons

theorem chargeHops_hop (G : WGraph) :
    ∀ (p : List ℕ) (cons : ℕ → ℚ) (acc : ℚ) (i : ℕ) (hi : i + 1 < p.length),
      p.Nodup →
      (chargeHops G p cons acc).1 (p.get ⟨i, by omega⟩) =
        cons (p.get ⟨i, by omega⟩) +
          edgeW G (p.get ⟨i, by omega⟩) (p.get ⟨i + 1, hi⟩)
  | [], _, _, i, hi, _ => by simp at hi
  | [_], _, _, i, hi, _ => by simp at hi
  | u :: v :: rest, cons, acc, 0, hi, hnd => by
    show (chargeHops G (v :: rest) (Function.update cons u (cons u + edgeW G u v)) _).1 u =
      cons u + edgeW G u v
    have hu : u ∉ (v :: rest).dropLast := by
      intro hmem
      exact (List.nodup_cons.mp hnd).1 (List.dropLast_subset _ hmem)
    rw [chargeHops_not_mem G (v :: rest) _ _ u hu]
    exact Function.update_same u _ cons
  | u :: v :: rest, cons, acc, i + 1, hi, hnd => by
    have hi2 : i + 1 < (v :: rest).length := by
      simpa using Nat.lt_of_succ_lt_succ hi
    have helem : (v :: rest).get ⟨i, by omega⟩ ≠ u := by
      intro he
      exact (List.nodup_cons.mp hnd).1 (he ▸ List.get_mem (v :: rest) i _)
    show (chargeHops G (v :: rest) (Function.update cons u (cons u + edgeW G u v)) _).1
        ((v :: rest).get ⟨i, by omega⟩) = _
    rw [chargeHops_hop G (v :: rest) _ _ i hi2 (List.nodup_cons.mp hnd).2]
    rw [Function.update_noteq helem _ cons]
    rfl

/-- **C4.** For every wellformed graph with non-negative edge weights in
which the sink is reachable from the source, `communicate_with_mother`
returns a (duplicate-free) source→sink path of minimum total edge weight
among all paths, its returned `total_cost` is exactly the sum of the edge
weights along that path, and the cumulative communication cost recorded for
each path node `u` (except the sink) increases by exactly the weight of the
edge from `u` to its successor on the path. -/
theorem communicate_with_mother_min_path (G : WGraph) (s t : ℕ) (cons : ℕ → ℚ)
    (hWF : G.WF) (hnn : G.NonnegW) (hs : s ∈ G.nodes)
    (hreach : ∃ q, IsPathFrom G s t q) :
    ∃ p cons2,
      communicate_with_mother G s t cons = (p, ((pathWeight G p : ℚ) : WithTop ℚ), cons2) ∧
        IsPathFrom G s t p ∧ p.Nodup ∧
        (∀ q, IsPathFrom G s t q → pathWeight G p ≤ pathWeight G q) ∧
        ∀ (i : ℕ) (hi : i + 1 < p.length),
          cons2 (p.get ⟨i, by omega⟩) =
            cons (p.get ⟨i, by omega⟩) +
              edgeW G (p.get ⟨i, by omega⟩) (p.get ⟨i + 1, hi⟩) := by
  obtain ⟨p, hp⟩ := dijkstra_path_reachable G s t hWF hnn hs hreach
  obtain ⟨hpath, hnd, hmin⟩ := dijkstra_path_spec G s t hWF hnn hs p hp
  refine ⟨p, (chargeHops G p cons 0).1, ?_, hpath, hnd, hmin, ?_⟩
  · unfold communicate_with_mother
    rw [hp]
    have htot : (chargeHops G p cons 0).2 = pathWeight G p := by
      rw [chargeHops_total G p cons 0, zero_add]
    simp [htot]
  · intro i hi
    exact chargeHops_hop G p cons 0 i hi hnd

theorem G4_WF : G4.WF := by
  constructor
  · decide
  · intro u v h
    simp only [G4, wG4] at h ⊢
    split_ifs at h with h1 h2 h3 h4 h5
    · rcases h1 with ⟨rfl, rfl⟩ | ⟨rfl, rfl⟩ <;> exact ⟨by simp, by simp⟩
    · rcases h2 with ⟨rfl, rfl⟩ | ⟨rfl, rfl⟩ <;> exact ⟨by simp, by simp⟩
    · rcases h3 with ⟨rfl, rfl⟩ | ⟨rfl, rfl⟩ <;> exact ⟨by simp, by simp⟩
    · rcases h4 with ⟨rfl, rfl⟩ | ⟨rfl, rfl⟩ <;> exact ⟨by simp, by simp⟩
    · rcases h5 with ⟨rfl, rfl⟩ | ⟨rfl, rfl⟩ <;> exact ⟨by simp, by simp⟩
    · simp at h

theorem G4_nonneg : G4.NonnegW := by
  intro u v w h
  simp only [G4, wG4] at h
  split_ifs at h <;>
    simp only [Option.some.injEq] at h <;>
    first
    | (rw [← h]; norm_num)
    | exact absurd h (by simp)

theorem G4_reach : ∃ q, IsPathFrom G4 0 3 q :=
  ⟨[0, 3], by
    refine ⟨by simp, rfl, rfl, List.chain'_pair.mpr ?_⟩
    rfl⟩

theorem no_path_G2disc : ¬∃ p, IsPathFrom G2disc 0 1 p := by
  rintro ⟨p, hne, hh, hl, hc⟩
  cases p with
  | nil => exact hne rfl
  | cons a q =>
    cases q with
    | nil =>
      simp only [List.head?_cons, Option.some.injEq] at hh
      simp only [List.getLast?_singleton, Option.some.injEq] at hl
      omega
    | cons b q2 =>
      have hadj := (List.chain'_cons.mp hc).1
      simp [WGraph.adj, G2disc] at hadj

/-- **C9.** When the mother node is unreachable from the source,
`communicate_with_mother` does not raise: it returns the empty path,
infinite (`⊤`) total cost and the untouched consumption ledger; and the
communication block of the `simulate_node` body is a complete no-op — no
log entry is appended, no cumulative node cost changes, and no
communication energy charge is applied to the system of the triggering
node, so
the simulation continues from an unchanged state. -/
theorem comm_unreachable_is_noop (G : WGraph) (mother node step : ℕ)
    (st : SimState) (hunreach : ¬∃ p, IsPathFrom G node mother p) :
    communicate_with_mother G node mother st.cons = ([], ⊤, st.cons) ∧
      handleComm G mother node step 1 st = st := by
  have hd := dijkstra_path_unreachable G node mother hunreach
  have hcomm : communicate_with_mother G node mother st.cons = ([], ⊤, st.cons) := by
    unfold communicate_with_mother
    rw [hd]
  refine ⟨hcomm, ?_⟩
  unfold handleComm
  rw [if_pos rfl]
  dsimp only
  rw [hcomm]
  simp

/-- Witness for C9: in the edgeless two-node graph the communication event
at node 0 leaves the loop state untouched. -/
theorem comm_unreachable_is_noop_witness :
    communicate_with_mother G2disc 0 1 stProbe.cons = ([], ⊤, stProbe.cons) ∧
      handleComm G2disc 1 0 0 1 stProbe = stProbe :=
  comm_unreachable_is_noop G2disc 1 0 0 stProbe no_path_G2disc

/-- **C3, counterexample.** On the line network 0 – 1 – 2 a communication
event at node 0 succeeds with path `[0, 1, 2]`, so node 1 relays the
message over the weight-10 edge (1, 2).  Contrary to the claim, relay
the `Energysystem` of node 1 is left completely unchanged by the event, while
applying the claimed charging injection of `−weight(1,2)` through the
ordinary update interface *would* have changed it (already the battery
field `P_check`).  So no relay receives the claimed injection. -/
theorem relay_injection_counterexample :
    (communicate_with_mother GLine 0 2 consZero).1 = [0, 1, 2] ∧
      (networkCommEffect GLine 2 0 lineSystems consZero [] 5).1 1 = lineSystems 1 ∧
      injectDemand oSim (lineSystems 1) (-(edgeW GLine 1 2)) ≠ lineSystems 1 := by
  have h1 : (communicate_with_mother GLine 0 2 consZero).1 = [0, 1, 2] := rfl
  refine ⟨h1, ?_, ?_⟩
  · unfold networkCommEffect
    dsimp only
    rw [if_pos (by rw [h1]; simp)]
    dsimp only
    exact Function.update_noteq (by norm_num) _ _
  · intro h
    have h2 := congrArg (fun e => e.battery.P_check) h
    have hw : edgeW GLine 1 2 = 10 := rfl
    rw [hw] at h2
    norm_num [injectDemand, Energysystem.energy_manager, LiBattery.update,
      LiBattery.update_voc, lineSystems, emBattOnly, emCex] at h2

/-- **C3, amended.** Whenever a communication event succeeds, for every
consecutive pair `(u, v)` on the returned path the *cumulative
communication cost* of the relay `u` (the shared
`node_energy_consumptions` ledger entry) increases by exactly the weight of `(u, v)`; but no `Energysystem` of any node
receives any injection through the update interface: the only per-system
effect is that the own `P_demand` bookkeeping field of the *triggering*
node is increased by `total_cost/dt`, and the system of every other node
is untouched. -/
theorem network_comm_effect_success (G : WGraph) (mother source : ℕ)
    (systems : ℕ → Energysystem) (cons : ℕ → ℚ) (log : List CommEvent)
    (step : ℕ) (hWF : G.WF) (hnn : G.NonnegW) (hs : source ∈ G.nodes)
    (hreach : ∃ q, IsPathFrom G source mother q) :
    ∃ p cons2,
      communicate_with_mother G source mother cons =
          (p, ((pathWeight G p : ℚ) : WithTop ℚ), cons2) ∧
        IsPathFrom G source mother p ∧ p.Nodup ∧
        (∀ (i : ℕ) (hi : i + 1 < p.length),
          cons2 (p.get ⟨i, by omega⟩) =
            cons (p.get ⟨i, by omega⟩) +
              edgeW G (p.get ⟨i, by omega⟩) (p.get ⟨i + 1, hi⟩)) ∧
        networkCommEffect G mother source systems cons log step =
          (Function.update systems source
              { systems source with
                P_demand := (systems source).P_demand +
                  pathWeight G p / (systems source).dt },
            cons2,
            log ++ [{ step := step, path := p,
                      total_cost := ((pathWeight G p : ℚ) : WithTop ℚ) }]) ∧
        ∀ x, x ≠ source →
          (networkCommEffect G mother source systems cons log step).1 x =
            systems x := by
  obtain ⟨p, hp⟩ := dijkstra_path_reachable G source mother hWF hnn hs hreach
  obtain ⟨hpath, hnd, hmin⟩ := dijkstra_path_spec G source mother hWF hnn hs p hp
  have hcomm : communicate_with_mother G source mother cons =
      (p, ((pathWeight G p : ℚ) : WithTop ℚ), (chargeHops G p cons 0).1) := by
    unfold communicate_with_mother
    rw [hp]
    have htot : (chargeHops G p cons 0).2 = pathWeight G p := by
      rw [chargeHops_total G p cons 0, zero_add]
    simp [htot]
  have heff : networkCommEffect G mother source systems cons log step =
      (Function.update systems source
          { systems source with
            P_demand := (systems source).P_demand +
              pathWeight G p / (systems source).dt },
        (chargeHops G p cons 0).1,
        log ++ [{ step := step, path := p,
                  total_cost := ((pathWeight G p : ℚ) : WithTop ℚ) }]) := by
    unfold networkCommEffect
    dsimp only
    rw [hcomm]
    rw [if_pos (by simpa using hpath.1)]
    simp [WithTop.untop'_coe]
  refine ⟨p, (chargeHops G p cons 0).1, hcomm, hpath, hnd,
    (fun i hi => chargeHops_hop G p cons 0 i hi hnd), heff, ?_⟩
  intro x hx
  rw [heff]
  exact Function.update_noteq hx _ _

theorem GLine_WF : GLine.WF := by
  constructor
  · decide
  · intro u v h
    simp only [GLine, wLine] at h ⊢
    split_ifs at h with h1 h2
    · rcases h1 with ⟨rfl, rfl⟩ | ⟨rfl, rfl⟩ <;> exact ⟨by simp, by simp⟩
    · rcases h2 with ⟨rfl, rfl⟩ | ⟨rfl, rfl⟩ <;> exact ⟨by simp, by simp⟩
    · simp at h

theorem GLine_nonneg : GLine.NonnegW := by
  intro u v w h
  simp only [GLine, wLine] at h
  split_ifs at h <;>
    simp only [Option.some.injEq] at h <;>
    first
    | (rw [← h]; norm_num)
    | exact absurd h (by simp)

theorem GLine_reach : ∃ q, IsPathFrom GLine 0 2 q :=
  ⟨[0, 1, 2], by
    refine ⟨by simp, rfl, rfl, ?_⟩
    refine List.chain'_cons.mpr ⟨rfl, List.chain'_pair.mpr rfl⟩⟩

/-- Witness for the amended C3: the concrete line-network event. -/
theorem network_comm_effect_success_witness :
    ∃ p cons2,
      communicate_with_mother GLine 0 2 consZero =
          (p, ((pathWeight GLine p : ℚ) : WithTop ℚ), cons2) ∧
        IsPathFrom GLine 0 2 p ∧ p.Nodup ∧
        (∀ (i : ℕ) (hi : i + 1 < p.length),
          cons2 (p.get ⟨i, by omega⟩) =
            consZero (p.get ⟨i, by omega⟩) +
              edgeW GLine (p.get ⟨i, by omega⟩) (p.get ⟨i + 1, hi⟩)) ∧
        networkCommEffect GLine 2 0 lineSystems consZero [] 5 =
          (Function.update lineSystems 0
              { lineSystems 0 with
                P_demand := (lineSystems 0).P_demand +
                  pathWeight GLine p / (lineSystems 0).dt },
            cons2,
            [] ++ [{ step := 5, path := p,
                     total_cost := ((pathWeight GLine p : ℚ) : WithTop ℚ) }]) ∧
        ∀ x, x ≠ 0 →
          (networkCommEffect GLine 2 0 lineSystems consZero [] 5).1 x =
            lineSystems x :=
  network_comm_effect_success GLine 2 0 lineSystems consZero [] 5
    GLine_WF GLine_nonneg (by decide) GLine_reach

/-- Witness for C4: on the concrete 4-node, 5-edge graph `G4` the routing
call from 0 to 3 returns a minimum-weight path with the stated cost and
ledger bookkeeping. -/
theorem communicate_with_mother_min_path_witness :
    ∃ p cons2,
      communicate_with_mother G4 0 3 consZero =
          (p, ((pathWeight G4 p : ℚ) : WithTop ℚ), cons2) ∧
        IsPathFrom G4 0 3 p ∧ p.Nodup ∧
        (∀ q, IsPathFrom G4 0 3 q → pathWeight G4 p ≤ pathWeight G4 q) ∧
        ∀ (i : ℕ) (hi : i + 1 < p.length),
          cons2 (p.get ⟨i, by omega⟩) =
            consZero (p.get ⟨i, by omega⟩) +
              edgeW G4 (p.get ⟨i, by omega⟩) (p.get ⟨i + 1, hi⟩) :=
  communicate_with_mother_min_path G4 0 3 consZero G4_WF G4_nonneg (by decide) G4_reach

/-! ## Lemmas about the simulation loop -/

theorem take_succ_set {l : List ℚ} {a : ℕ} (x : ℚ) (h : a < l.length) :
    (l.set a x).take (a + 1) = l.take a ++ [x] := by
  rw [List.set_eq_take_append_cons_drop, if_pos h]
  rw [List.take_append_eq_append_take]
  simp [List.length_take, Nat.min_eq_left (le_of_lt h)]

theorem handleComm_series (G : WGraph) (mother node step : ℕ) (ev : ℤ)
    (st : SimState) :
    (handleComm G mother node step ev st).Qloss = st.Qloss ∧
      (handleComm G mother node step ev st).Qvoc = st.Qvoc ∧
      (handleComm G mother node step ev st).Qsoc = st.Qsoc ∧
      (handleComm G mother node step ev st).Qi = st.Qi ∧
      (handleComm G mother node step ev st).Qsc = st.Qsc ∧
      (handleComm G mother node step ev st).yita_test = st.yita_test ∧
      (handleComm G mother node step ev st).P_bat = st.P_bat ∧
      (handleComm G mother node step ev st).P_sc = st.P_sc ∧
      (handleComm G mother node step ev st).P_demand = st.P_demand := by
  unfold handleComm
  dsimp only
  split_ifs <;> exact ⟨rfl, rfl, rfl, rfl, rfl, rfl, rfl, rfl, rfl⟩

theorem simBody_inl_series (o : Oracles) (G : WGraph) (mother node : ℕ)
    (En : ℕ → ℚ) (event : ℕ → ℤ) (s : ℕ) (st st2 : SimState)
    (h : simBody o G mother node En event s st = Sum.inl st2) :
    st2.Qloss = st.Qloss ∧ st2.Qvoc = st.Qvoc ∧ st2.Qsoc = st.Qsoc ∧
      st2.Qi = st.Qi ∧ st2.Qsc = st.Qsc ∧ st2.yita_test = st.yita_test ∧
      st2.P_bat = st.P_bat ∧ st2.P_sc = st.P_sc ∧
      st2.P_demand = st.P_demand := by
  unfold simBody at h
  cases hup : st.es.update o (event s) (En s) with
  | none =>
    rw [hup] at h
    dsimp only at h
    injection h with h
    subst h
    exact ⟨rfl, rfl, rfl, rfl, rfl, rfl, rfl, rfl, rfl⟩
  | some x =>
    obtain ⟨es1, vec⟩ := x
    rw [hup] at h
    dsimp only at h
    split_ifs at h <;>
      (try (injection h with h; subst h)) <;>
      (try exact ⟨rfl, rfl, rfl, rfl, rfl, rfl, rfl, rfl, rfl⟩) <;>
      injection h

theorem simBody_inr_series (o : Oracles) (G : WGraph) (mother node : ℕ)
    (En : ℕ → ℚ) (event : ℕ → ℤ) (s : ℕ) (st st2 : SimState) (r1 : StepRecord)
    (h : simBody o G mother node En event s st = Sum.inr (st2, r1)) :
    st2.Qloss = st.Qloss.set s r1.qloss ∧ st2.Qvoc = st.Qvoc.set s r1.qvoc ∧
      st2.Qsoc = st.Qsoc.set s r1.qsoc ∧ st2.Qi = st.Qi.set s r1.qi ∧
      st2.Qsc = st.Qsc.set s r1.qsc ∧
      st2.yita_test = st.yita_test.set s r1.yita ∧
      st2.P_bat = st.P_bat.set s r1.pbat ∧ st2.P_sc = st.P_sc.set s r1.psc ∧
      st2.P_demand = st.P_demand.set s r1.pdem := by
  unfold simBody at h
  cases hup : st.es.update o (event s) (En s) with
  | none =>
    rw [hup] at h
    dsimp only at h
    simp at h
  | some x =>
    obtain ⟨es1, vec⟩ := x
    rw [hup] at h
    dsimp only at h
    split_ifs at h <;>
      (try (injection h with h; injection h with h1 h2; subst h1; subst h2)) <;>
      (try exact ⟨(handleComm_series G mother node s (event s) _).1,
        (handleComm_series G mother node s (event s) _).2.1,
        (handleComm_series G mother node s (event s) _).2.2.1,
        (handleComm_series G mother node s (event s) _).2.2.2.1,
        (handleComm_series G mother node s (event s) _).2.2.2.2.1,
        (handleComm_series G mother node s (event s) _).2.2.2.2.2.1,
        (handleComm_series G mother node s (event s) _).2.2.2.2.2.2.1,
        (handleComm_series G mother node s (event s) _).2.2.2.2.2.2.2.1,
        (handleComm_series G mother node s (event s) _).2.2.2.2.2.2.2.2⟩) <;>
      injection h

theorem simLoopGo_eq_specLoop (o : Oracles) (G : WGraph) (mother node : ℕ)
    (En : ℕ → ℚ) (event : ℕ → ℤ) :
    ∀ (l : List ℕ) (st : SimState),
      simLoopGo o G mother node En event l st =
        ((specLoop o G mother node En event l st).2.1,
          (specLoop o G mother node En event l st).2.2.1)
  | [], _ => rfl
  | [s], st => by
    cases hb : simBody o G mother node En event s st with
    | inl st2 => simp [simLoopGo, specLoop, hb]
    | inr x =>
      obtain ⟨st2, r1⟩ := x
      simp [simLoopGo, specLoop, hb]
  | s :: s2 :: rest, st => by
    cases hb : simBody o G mother node En event s st with
    | inl st2 => simp [simLoopGo, specLoop, hb]
    | inr x =>
      obtain ⟨st2, r1⟩ := x
      simp only [simLoopGo, specLoop, hb]
      exact simLoopGo_eq_specLoop o G mother node En event (s2 :: rest) st2

theorem specLoop_series (o : Oracles) (G : WGraph) (mother node : ℕ)
    (En : ℕ → ℚ) (event : ℕ → ℤ) (fL : SimState → List ℚ) (fR : StepRecord → ℚ)
    (Hbrk : ∀ s st st2, simBody o G mother node En event s st = Sum.inl st2 →
      fL st2 = fL st)
    (Hset : ∀ s st st2 r1,
      simBody o G mother node En event s st = Sum.inr (st2, r1) →
      fL st2 = (fL st).set s (fR r1)) :
    ∀ (k a : ℕ) (st : SimState), 1 ≤ k → a + k ≤ (fL st).length →
      (fL (specLoop o G mother node En event (List.range' a k) st).2.1).length =
          (fL st).length ∧
      (fL (specLoop o G mother node En event (List.range' a k) st).2.1).take
          (a + (specLoop o G mother node En event (List.range' a k) st).1.length) =
        (fL st).take a ++
          (specLoop o G mother node En event (List.range' a k) st).1.map fR ∧
      ((specLoop o G mother node En event (List.range' a k) st).2.2.2 = true →
        (specLoop o G mother node En event (List.range' a k) st).1.length = k ∧
          (specLoop o G mother node En event (List.range' a k) st).2.2.1 =
            a + k - 1) ∧
      ((specLoop o G mother node En event (List.range' a k) st).2.2.2 = false →
        (specLoop o G mother node En event (List.range' a k) st).2.2.1 =
          a + (specLoop o G mother node En event (List.range' a k) st).1.length) := by
  intro k
  induction k with
  | zero =>
    intro a st h1
    exact absurd h1 (by norm_num)
  | succ k ih =>
    intro a st _ hlen
    by_cases hk : k = 0
    · subst hk
      rw [show List.range' a 1 = [a] from rfl]
      cases hb : simBody o G mother node En event a st with
      | inl st2 =>
        have hfr := Hbrk a st st2 hb
        simp only [specLoop, hb]
        refine ⟨by rw [hfr], ?_, ?_, ?_⟩
        · rw [hfr]
          simp
        · intro hcc
          simp at hcc
        · intro _
          simp
      | inr x =>
        obtain ⟨st2, r1⟩ := x
        have hfr := Hset a st st2 r1 hb
        simp only [specLoop, hb]
        refine ⟨?_, ?_, ?_, ?_⟩
        · rw [hfr]
          simp
        · rw [hfr]
          have := take_succ_set (l := fL st) (a := a) (fR r1) (by omega)
          simpa using this
        · intro _
          exact ⟨rfl, by omega⟩
        · intro hcc
          simp at hcc
    · have hk1 : 1 ≤ k := Nat.one_le_iff_ne_zero.mpr hk
      have hr : List.range' a (k + 1) = a :: List.range' (a + 1) k :=
        List.range'_succ a k 1
      obtain ⟨s2, rest, hr2⟩ : ∃ s2 rest, List.range' (a + 1) k = s2 :: rest := by
        cases hck : List.range' (a + 1) k with
        | nil =>
          exfalso
          have h0 := congrArg List.length hck
          rw [List.length_range'] at h0
          simp at h0
          omega
        | cons s2 rest => exact ⟨s2, rest, rfl⟩
      rw [hr, hr2]
      cases hb : simBody o G mother node En event a st with
      | inl st2 =>
        have hfr := Hbrk a st st2 hb
        simp only [specLoop, hb]
        refine ⟨by rw [hfr], ?_, ?_, ?_⟩
        · rw [hfr]
          simp
        · intro hcc
          simp at hcc
        · intro _
          simp
      | inr x =>
        obtain ⟨st2, r1⟩ := x
        have hfr := Hset a st st2 r1 hb
        have hlen2 : (a + 1) + k ≤ (fL st2).length := by
          rw [hfr, List.length_set]
          omega
        have IH := ih (a + 1) st2 hk1 hlen2
        rw [hr2] at IH
        obtain ⟨IH1, IH2, IH3, IH4⟩ := IH
        simp only [specLoop, hb]
        refine ⟨?_, ?_, ?_, ?_⟩
        · rw [IH1, hfr, List.length_set]
        · have hstep : (fL st2).take (a + 1) = (fL st).take a ++ [fR r1] := by
            rw [hfr]
            exact take_succ_set (fR r1) (by omega)
          have harr : a + (List.length
              ((specLoop o G mother node En event (s2 :: rest) st2).1) + 1) =
              (a + 1) + (specLoop o G mother node En event (s2 :: rest) st2).1.length := by
            omega
          simp only [List.length_cons, List.map_cons]
          rw [harr, IH2, hstep]
          simp
        · intro hcc
          obtain ⟨hl1, hl2⟩ := IH3 hcc
          constructor
          · rw [List.length_cons, hl1]
          · omega
        · intro hcc
          have := IH4 hcc
          simp only [List.length_cons]
          omega

theorem take_pred_eq_dropLast {l m : List ℚ} {n : ℕ} (hfull : l.take n = m)
    (hm : m.length = n) : l.take (n - 1) = m.dropLast := by
  have h1 : l.take (n - 1) = (l.take n).take (n - 1) := by
    rw [List.take_take]
    congr 1
    omega
  rw [h1, hfull, List.dropLast_eq_take, hm]

/-- **C8, amended.** Every successful `simulate_node` run returns, in each
of the nine series, exactly the *recorded* values of executed steps, with
the following boundary: if the loop stopped early at step `s` (the update
signalled Dead, or `Qloss` crossed the 0.45 safety threshold), the series
are exactly the recorded values of steps `0 … s−1`; but if the run
completes all `num_steps` steps without an early stop, the returned series
contain only the recorded values of steps `0 … num_steps−2`: the final
slice `[:step]` with `step = num_steps−1` drops the last recorded step
(`Node_class.py` lines 124–135). -/
theorem simulate_node_series_spec (o : Oracles) (es : Energysystem) (n : ℕ)
    (En : ℕ → ℚ) (event : ℕ → ℤ) (G : WGraph) (mother node : ℕ)
    (cons : ℕ → ℚ) (res : SimResult)
    (hres : simulate_node o es n En event G mother node cons = some res) :
    ((nodeRunRecords o es n En event G mother node cons).2.2.2 = false →
      res.Qloss =
          (nodeRunRecords o es n En event G mother node cons).1.map (fun r => r.qloss) ∧
        res.Qvoc =
          (nodeRunRecords o es n En event G mother node cons).1.map (fun r => r.qvoc) ∧
        res.Qsoc =
          (nodeRunRecords o es n En event G mother node cons).1.map (fun r => r.qsoc) ∧
        res.Qi =
          (nodeRunRecords o es n En event G mother node cons).1.map (fun r => r.qi) ∧
        res.Qsc =
          (nodeRunRecords o es n En event G mother node cons).1.map (fun r => r.qsc) ∧
        res.yita_test =
          (nodeRunRecords o es n En event G mother node cons).1.map (fun r => r.yita) ∧
        res.P_bat =
          (nodeRunRecords o es n En event G mother node cons).1.map (fun r => r.pbat) ∧
        res.P_sc =
          (nodeRunRecords o es n En event G mother node cons).1.map (fun r => r.psc) ∧
        res.P_demand =
          (nodeRunRecords o es n En event G mother node cons).1.map (fun r => r.pdem)) ∧
    ((nodeRunRecords o es n En event G mother node cons).2.2.2 = true →
      (nodeRunRecords o es n En event G mother node cons).1.length = n ∧
        res.Qloss =
          ((nodeRunRecords o es n En event G mother node cons).1.map
            (fun r => r.qloss)).dropLast ∧
        res.Qvoc =
          ((nodeRunRecords o es n En event G mother node cons).1.map
            (fun r => r.qvoc)).dropLast ∧
        res.Qsoc =
          ((nodeRunRecords o es n En event G mother node cons).1.map
            (fun r => r.qsoc)).dropLast ∧
        res.Qi =
          ((nodeRunRecords o es n En event G mother node cons).1.map
            (fun r => r.qi)).dropLast ∧
        res.Qsc =
          ((nodeRunRecords o es n En event G mother node cons).1.map
            (fun r => r.qsc)).dropLast ∧
        res.yita_test =
          ((nodeRunRecords o es n En event G mother node cons).1.map
            (fun r => r.yita)).dropLast ∧
        res.P_bat =
          ((nodeRunRecords o es n En event G mother node cons).1.map
            (fun r => r.pbat)).dropLast ∧
        res.P_sc =
          ((nodeRunRecords o es n En event G mother node cons).1.map
            (fun r => r.psc)).dropLast ∧
        res.P_demand =
          ((nodeRunRecords o es n En event G mother node cons).1.map
            (fun r => r.pdem)).dropLast) := by
  have hn : n ≠ 0 := by
    intro h
    rw [h] at hres
    simp [simulate_node] at hres
  have hn1 : 1 ≤ n := Nat.one_le_iff_ne_zero.mpr hn
  have hinit : ∀ l : List ℚ, l = List.replicate n (0:ℚ) ∨ l = List.replicate n (1:ℚ) →
      0 + n ≤ l.length := by
    rintro l (rfl | rfl) <;> simp
  unfold simulate_node at hres
  rw [if_neg hn] at hres
  dsimp only at hres
  injection hres with hres
  subst hres
  unfold nodeRunRecords
  have hpar := simLoopGo_eq_specLoop o G mother node En event (List.range n)
    (initSimState es n cons)
  have hQ := specLoop_series o G mother node En event (fun s => s.Qloss)
    (fun r => r.qloss)
    (fun s st st2 h => (simBody_inl_series o G mother node En event s st st2 h).1)
    (fun s st st2 r1 h => (simBody_inr_series o G mother node En event s st st2 r1 h).1)
    n 0 (initSimState es n cons) hn1 (hinit _ (Or.inl rfl))
  have hQv := specLoop_series o G mother node En event (fun s => s.Qvoc)
    (fun r => r.qvoc)
    (fun s st st2 h => (simBody_inl_series o G mother node En event s st st2 h).2.1)
    (fun s st st2 r1 h => (simBody_inr_series o G mother node En event s st st2 r1 h).2.1)
    n 0 (initSimState es n cons) hn1 (hinit _ (Or.inl rfl))
  have hQs := specLoop_series o G mother node En event (fun s => s.Qsoc)
    (fun r => r.qsoc)
    (fun s st st2 h => (simBody_inl_series o G mother node En event s st st2 h).2.2.1)
    (fun s st st2 r1 h => (simBody_inr_series o G mother node En event s st st2 r1 h).2.2.1)
    n 0 (initSimState es n cons) hn1 (hinit _ (Or.inl rfl))
  have hQi := specLoop_series o G mother node En event (fun s => s.Qi)
    (fun r => r.qi)
    (fun s st st2 h => (simBody_inl_series o G mother node En event s st st2 h).2.2.2.1)
    (fun s st st2 r1 h => (simBody_inr_series o G mother node En event s st st2 r1 h).2.2.2.1)
    n 0 (initSimState es n cons) hn1 (hinit _ (Or.inl rfl))
  have hQc := specLoop_series o G mother node En event (fun s => s.Qsc)
    (fun r => r.qsc)
    (fun s st st2 h => (simBody_inl_series o G mother node En event s st st2 h).2.2.2.2.1)
    (fun s st st2 r1 h => (simBody_inr_series o G mother node En event s st st2 r1 h).2.2.2.2.1)
    n 0 (initSimState es n cons) hn1 (hinit _ (Or.inl rfl))
  have hYt := specLoop_series o G mother node En event (fun s => s.yita_test)
    (fun r => r.yita)
    (fun s st st2 h => (simBody_inl_series o G mother node En event s st st2 h).2.2.2.2.2.1)
    (fun s st st2 r1 h => (simBody_inr_series o G mother node En event s st st2 r1 h).2.2.2.2.2.1)
    n 0 (initSimState es n cons) hn1 (hinit _ (Or.inr rfl))
  have hPb := specLoop_series o G mother node En event (fun s => s.P_bat)
    (fun r => r.pbat)
    (fun s st st2 h => (simBody_inl_series o G mother node En event s st st2 h).2.2.2.2.2.2.1)
    (fun s st st2 r1 h => (simBody_inr_series o G mother node En event s st st2 r1 h).2.2.2.2.2.2.1)
    n 0 (initSimState es n cons) hn1 (hinit _ (Or.inl rfl))
  have hPs := specLoop_series o G mother node En event (fun s => s.P_sc)
    (fun r => r.psc)
    (fun s st st2 h => (simBody_inl_series o G mother node En event s st st2 h).2.2.2.2.2.2.2.1)
    (fun s st st2 r1 h => (simBody_inr_series o G mother node En event s st st2 r1 h).2.2.2.2.2.2.2.1)
    n 0 (initSimState es n cons) hn1 (hinit _ (Or.inl rfl))
  have hPd := specLoop_series o G mother node En event (fun s => s.P_demand)
    (fun r => r.pdem)
    (fun s st st2 h => (simBody_inl_series o G mother node En event s st st2 h).2.2.2.2.2.2.2.2)
    (fun s st st2 r1 h => (simBody_inr_series o G mother node En event s st st2 r1 h).2.2.2.2.2.2.2.2)
    n 0 (initSimState es n cons) hn1 (hinit _ (Or.inl rfl))
  rw [← List.range_eq_range'] at hQ hQv hQs hQi hQc hYt hPb hPs hPd
  rw [hpar]
  dsimp only
  constructor
  · intro hflag
    have hexit := hQ.2.2.2 hflag
    rw [hexit]
    refine ⟨?_, ?_, ?_, ?_, ?_, ?_, ?_, ?_, ?_⟩
    · simpa using hQ.2.1
    · simpa using hQv.2.1
    · simpa using hQs.2.1
    · simpa using hQi.2.1
    · simpa using hQc.2.1
    · simpa using hYt.2.1
    · simpa using hPb.2.1
    · simpa using hPs.2.1
    · simpa using hPd.2.1
  · intro hflag
    obtain ⟨hlen, hexit⟩ := hQ.2.2.1 hflag
    rw [hexit]
    have hfix : 0 + n - 1 = n - 1 := by omega
    rw [hfix]
    refine ⟨hlen, ?_, ?_, ?_, ?_, ?_, ?_, ?_, ?_, ?_⟩
    · refine take_pred_eq_dropLast ?_ (by rw [List.length_map, hlen])
      have := hQ.2.1
      rw [hlen] at this
      simpa using this
    · refine take_pred_eq_dropLast ?_ (by rw [List.length_map, hlen])
      have := hQv.2.1
      rw [hlen] at this
      simpa using this
    · refine take_pred_eq_dropLast ?_ (by rw [List.length_map, hlen])
      have := hQs.2.1
      rw [hlen] at this
      simpa using this
    · refine take_pred_eq_dropLast ?_ (by rw [List.length_map, hlen])
      have := hQi.2.1
      rw [hlen] at this
      simpa using this
    · refine take_pred_eq_dropLast ?_ (by rw [List.length_map, hlen])
      have := hQc.2.1
      rw [hlen] at this
      simpa using this
    · refine take_pred_eq_dropLast ?_ (by rw [List.length_map, hlen])
      have := hYt.2.1
      rw [hlen] at this
      simpa using this
    · refine take_pred_eq_dropLast ?_ (by rw [List.length_map, hlen])
      have := hPb.2.1
      rw [hlen] at this
      simpa using this
    · refine take_pred_eq_dropLast ?_ (by rw [List.length_map, hlen])
      have := hPs.2.1
      rw [hlen] at this
      simpa using this
    · refine take_pred_eq_dropLast ?_ (by rw [List.length_map, hlen])
      have := hPd.2.1
      rw [hlen] at this
      simpa using this

/-- **C8, counterexample.** A concrete 1-step run that completes all its
steps without any early stop (completion flag true, exactly one step
recorded) returns *empty* series: the slice `[:step]` with the final loop
variable `step = 0` drops the recorded step 0, contradicting the claim
that a full run returns the recorded values of all `num_steps` steps. -/
theorem simulate_node_full_run_counterexample :
    (nodeRunRecords oSim emBattOnly 1 (fun _ => 0) (fun _ => 0) GLine 2 0
        consZero).2.2.2 = true ∧
      (nodeRunRecords oSim emBattOnly 1 (fun _ => 0) (fun _ => 0) GLine 2 0
        consZero).1.length = 1 ∧
      Option.map (fun r => r.Qloss)
          (simulate_node oSim emBattOnly 1 (fun _ => 0) (fun _ => 0) GLine 2 0
            consZero) =
        some [] := by
  refine ⟨?_, ?_, ?_⟩ <;>
    norm_num [nodeRunRecords, specLoop, simBody, simulate_node, simLoopGo,
      initSimState, Energysystem.update, Energysystem.energy_manager,
      Energysystem.judge_state, Sensor.compute_power,
      SolarHarvester.compute_power, pymod, SuperCapacitor.update,
      LiBattery.update, LiBattery.update_voc, curveVoc, handleComm,
      emBattOnly, emCex, sensorZero, solarBright, flatCurve4, oSim,
      sqSixteen, consZero, abs_of_nonneg, abs_of_nonpos, min_def]

/-- Witness for the amended C8: the same concrete full run satisfies the
completed-run clause of the series specification. -/
theorem simulate_node_series_spec_witness :
    ∃ res,
      simulate_node oSim emBattOnly 1 (fun _ => 0) (fun _ => 0) GLine 2 0
          consZero = some res ∧
        ((nodeRunRecords oSim emBattOnly 1 (fun _ => 0) (fun _ => 0) GLine 2 0
            consZero).2.2.2 = true →
          (nodeRunRecords oSim emBattOnly 1 (fun _ => 0) (fun _ => 0) GLine 2 0
            consZero).1.length = 1 ∧
            res.Qloss =
              ((nodeRunRecords oSim emBattOnly 1 (fun _ => 0) (fun _ => 0)
                GLine 2 0 consZero).1.map (fun r => r.qloss)).dropLast ∧
            res.Qvoc =
              ((nodeRunRecords oSim emBattOnly 1 (fun _ => 0) (fun _ => 0)
                GLine 2 0 consZero).1.map (fun r => r.qvoc)).dropLast ∧
            res.Qsoc =
              ((nodeRunRecords oSim emBattOnly 1 (fun _ => 0) (fun _ => 0)
                GLine 2 0 consZero).1.map (fun r => r.qsoc)).dropLast ∧
            res.Qi =
              ((nodeRunRecords oSim emBattOnly 1 (fun _ => 0) (fun _ => 0)
                GLine 2 0 consZero).1.map (fun r => r.qi)).dropLast ∧
            res.Qsc =
              ((nodeRunRecords oSim emBattOnly 1 (fun _ => 0) (fun _ => 0)
                GLine 2 0 consZero).1.map (fun r => r.qsc)).dropLast ∧
            res.yita_test =
              ((nodeRunRecords oSim emBattOnly 1 (fun _ => 0) (fun _ => 0)
                GLine 2 0 consZero).1.map (fun r => r.yita)).dropLast ∧
            res.P_bat =
              ((nodeRunRecords oSim emBattOnly 1 (fun _ => 0) (fun _ => 0)
                GLine 2 0 consZero).1.map (fun r => r.pbat)).dropLast ∧
            res.P_sc =
              ((nodeRunRecords oSim emBattOnly 1 (fun _ => 0) (fun _ => 0)
                GLine 2 0 consZero).1.map (fun r => r.psc)).dropLast ∧
            res.P_demand =
              ((nodeRunRecords oSim emBattOnly 1 (fun _ => 0) (fun _ => 0)
                GLine 2 0 consZero).1.map (fun r => r.pdem)).dropLast) := by
  have hs : (simulate_node oSim emBattOnly 1 (fun _ => 0) (fun _ => 0) GLine 2 0
      consZero).isSome = true := by
    simp [simulate_node]
  obtain ⟨res, hres⟩ := Option.isSome_iff_exists.mp hs
  exact ⟨res, hres,
    (simulate_node_series_spec oSim emBattOnly 1 (fun _ => 0) (fun _ => 0)
      GLine 2 0 consZero res hres).2⟩

end EnergyNet
